import Mathlib

/-!
Verification development for the citation-needed repository.

Each definition below is a shallow embedding of a function of the Python
source (file and function named in its doc comment).  Strings are modelled
as `List Char`; Python floats are modelled as rationals; Python regular
expression matches are modelled by hand-written deterministic matchers that
mirror the concrete patterns of the source (all the quantifiers in those
patterns are matched greedily, and for every pattern embedded here the
greedy strategy agrees with the backtracking semantics because every
quantified character class is disjoint from the character that follows it).
-/

namespace CitationNeeded

/-- Strings of the Python source, modelled as lists of characters. -/
abbrev Str := List Char

/-- Shorthand turning a Lean string literal into the `List Char` model. -/
def str (s : String) : Str := s.data

/-- Python `str.lower()` (ASCII case folding suffices for this code base). -/
def lowerStr (s : Str) : Str := s.map Char.toLower

/-- Python whitespace (the characters matched by `\s` and stripped by
`str.strip()` on the ASCII inputs this code handles). -/
def isPySpace (c : Char) : Bool :=
  c = ' ' || c = '\t' || c = '\n' || c = '\r' || c = '\x0b' || c = '\x0c'

/-- A word character in the sense of the regex `\b` boundary (`[A-Za-z0-9_]`
on ASCII input). -/
def isWordChar (c : Char) : Bool :=
  ('a' ≤ c && c ≤ 'z') || ('A' ≤ c && c ≤ 'Z') || ('0' ≤ c && c ≤ '9') || c = '_'

/-- ASCII upper-case letter (the class `[A-Z]`). -/
def isUpperAZ (c : Char) : Bool := 'A' ≤ c && c ≤ 'Z'

/-- ASCII lower-case letter (the class `[a-z]`). -/
def isLowerAZ (c : Char) : Bool := 'a' ≤ c && c ≤ 'z'

/-- ASCII letter (the class `[a-zA-Z]`; with `re.IGNORECASE` the class
`[A-Z]` also matches exactly these characters). -/
def isLetterAZ (c : Char) : Bool := isUpperAZ c || isLowerAZ c

/-- ASCII digit (the class `\d` on ASCII input). -/
def isDigitC (c : Char) : Bool := '0' ≤ c && c ≤ '9'

/-- Python `min` on two floats, written with an explicit `if` so that it
evaluates by kernel reduction. -/
def qmin (a b : ℚ) : ℚ := if a ≤ b then a else b

/-- Python `max` on two floats. -/
def qmax (a b : ℚ) : ℚ := if a ≤ b then b else a

/-- `hasPre pre s` holds when `s` starts with `pre`
(Python `s.startswith(pre)`). -/
def hasPre : Str → Str → Bool
  | [], _ => true
  | _ :: _, [] => false
  | p :: ps, c :: cs => p = c && hasPre ps cs

/-- Python `needle in hay` substring containment. -/
def containsSub (hay needle : Str) : Bool :=
  match hay with
  | [] => hasPre needle []
  | _ :: rest => hasPre needle hay || containsSub rest needle

/-- Python `hay.find(needle)`: index of the first occurrence, `none` when
absent (the source then sees `-1`). -/
def findSub (hay needle : Str) : Option Nat :=
  match hay with
  | [] => if hasPre needle [] then some 0 else none
  | _ :: rest =>
    if hasPre needle hay then some 0
    else (findSub rest needle).map (· + 1)

/-- Python slice `s[a:b]` for `0 ≤ a, b` (clamping semantics). -/
def pySlice (s : Str) (a b : Nat) : Str := (s.take b).drop a

/-- Python `s.strip(chars)`: remove the characters satisfying `p` from both
ends. -/
def stripChars (p : Char → Bool) (s : Str) : Str :=
  ((s.dropWhile p).reverse.dropWhile p).reverse

/-- Characters stripped by Python `str.strip()` with no argument. -/
def stripWs (s : Str) : Str := stripChars isPySpace s

/-- Characters of the literal strip set `". "` used by `_validate_and_clean`. -/
def isDotSpace (c : Char) : Bool := c = '.' || c = ' '

/-- Characters of the literal strip set `". ,"` used by the regex title
heuristic of `_parse_with_regex`. -/
def isDotSpaceComma (c : Char) : Bool := c = '.' || c = ' ' || c = ','

/-- Python `str.split()` with no argument: split on runs of whitespace,
dropping empty pieces. -/
def splitWs (s : Str) : List Str :=
  match s with
  | [] => []
  | c :: rest =>
    if isPySpace c then splitWs rest
    else
      match splitWs (rest.dropWhile (fun d => !isPySpace d)) with
      | pieces => (c :: rest.takeWhile (fun d => !isPySpace d)) :: pieces
termination_by s.length
decreasing_by
  · simp
  · exact Nat.lt_succ_of_le (List.Sublist.length_le (List.dropWhile_sublist _))

/-- Join a list of strings with single spaces (Python `" ".join(ws)`). -/
def joinSpace : List Str → Str
  | [] => []
  | [w] => w
  | w :: ws => w ++ ' ' :: joinSpace ws

/-! ## Citation detector (`src/models/ner_extractor.py`, class `AcademicNER`)

The raw pattern matches produced by `re.finditer` over the seven citation
patterns are abstracted as an input list of `RawMatch` values (pattern
index, matched text, span), in the encounter order of the source's loop
(pattern-major, position-minor).  Everything the source does *after*
`finditer` — confidence scoring, the `< 0.3` guard, type classification,
overlap removal and the final sort — is embedded directly.  The best-effort
component fields (`authors`, `title`, `year`, `journal`, `doi`) of the
`Citation` dataclass are payload filled by `_extract_citation_components`;
they play no role in any property verified here and are omitted from the
model. -/

/-- The dataclass `Citation` of `ner_extractor.py` (selection-relevant
fields; `stop` models the Python field `end`, a reserved word in Lean). -/
structure Citation where
  text : Str
  start : Nat
  stop : Nat
  citationType : Str
  confidence : ℚ
  deriving DecidableEq, Repr

/-- A raw regex match: the index of the pattern that produced it, the
matched text `match.group()` and its span `match.span()`. -/
structure RawMatch where
  patternIdx : Nat
  text : Str
  start : Nat
  stop : Nat
  deriving DecidableEq, Repr

/-- The `academic_keywords` dictionary of `AcademicNER.__init__`, in the
source's iteration order (journals, publication_types, institutions,
academic_terms). -/
def academicKeywords : List (List Str) :=
  [ [str "journal", str "proceedings", str "conference", str "symposium", str "review"],
    [str "paper", str "article", str "study", str "research", str "publication"],
    [str "university", str "institute", str "laboratory", str "school", str "college"],
    [str "peer-reviewed", str "peer reviewed", str "published", str "citation", str "bibliography"] ]

/-- The `base_confidence` table of `AcademicNER._calculate_confidence`
(default 0.5 for an unknown pattern index). -/
def baseConfidence (patternIdx : Nat) : ℚ :=
  match patternIdx with
  | 0 => 0.9
  | 1 => 0.95
  | 2 => 0.85
  | 3 => 0.99
  | 4 => 0.99
  | 5 => 0.8
  | 6 => 0.9
  | _ => 0.5

/-- Does the text contain four consecutive digits (`re.search(r'\d{4}', t)`)? -/
def hasFourDigits : Str → Bool
  | [] => false
  | c :: rest =>
    (isDigitC c && (match rest with
      | d2 :: d3 :: d4 :: _ => isDigitC d2 && isDigitC d3 && isDigitC d4
      | _ => false))
    || hasFourDigits rest

/-- Does the text contain an upper-case letter followed by a lower-case one
(`re.search(r'[A-Z][a-z]+', t)`)? -/
def hasCapitalized : Str → Bool
  | [] => false
  | c :: rest =>
    (isUpperAZ c && (match rest with
      | d :: _ => isLowerAZ d
      | [] => false))
    || hasCapitalized rest

/-- The ±200-character context window of `AcademicNER._calculate_confidence`,
lower-cased.  Note the source centres the window on
`full_text.find(citation_text)` — the *first* occurrence of the matched
text, `-1` when absent — not on the actual match position
(`max(0, idx - 200)` is written as `Int.toNat` of the difference, which
clamps at zero the same way). -/
def contextWindow (citationText fullText : Str) : Str :=
  let idx : Int := match findSub fullText citationText with
    | some i => (i : Int)
    | none => -1
  let startPos : Nat := (idx - 200).toNat
  let endPos : Nat :=
    if (fullText.length : Int) ≤ idx + citationText.length + 200 then fullText.length
    else (idx + citationText.length + 200).toNat
  lowerStr (pySlice fullText startPos endPos)

/-- The number of `0.1` increments the keyword loop of
`_calculate_confidence` performs: one per keyword (over *all* families)
contained in the context window. -/
def keywordHits (context : Str) : Nat :=
  (academicKeywords.flatten.filter (fun kw => containsSub context kw)).length

/-- The number of `0.1` increments of the format-quality checks of
`_calculate_confidence`: a four-digit run, a capitalised name-like token,
and length above 20. -/
def formatHits (citationText : Str) : Nat :=
  (if hasFourDigits citationText then 1 else 0)
  + (if hasCapitalized citationText then 1 else 0)
  + (if citationText.length > 20 then 1 else 0)

/-- `AcademicNER._calculate_confidence(citation_text, full_text,
pattern_index)`: `min(1.0, base + keyword_boost + format_boost)` with each
boost written as its increment count times `0.1`. -/
def calculateConfidence (citationText fullText : Str) (patternIdx : Nat) : ℚ :=
  qmin 1 (baseConfidence patternIdx
    + (keywordHits (contextWindow citationText fullText) : ℚ) * 0.1
    + (formatHits citationText : ℚ) * 0.1)

/-- Search for `\([^()]*\d{4}[^()]*\)` (used by
`AcademicNER._classify_citation_type`): an opening parenthesis whose
enclosed, parenthesis-free segment ends at a closing parenthesis and
contains four consecutive digits. -/
def hasParenYear : Str → Bool
  | [] => false
  | c :: rest =>
    (c = '(' &&
      (let seg := rest.takeWhile (fun d => d ≠ '(' && d ≠ ')')
       match rest.dropWhile (fun d => d ≠ '(' && d ≠ ')') with
       | ')' :: _ => hasFourDigits seg
       | _ => false))
    || hasParenYear rest

/-- `AcademicNER._classify_citation_type`. -/
def classifyCitationType (citationText : Str) : Str :=
  let lower := lowerStr citationText
  if containsSub lower (str "doi:") || containsSub lower (str "doi.org") then str "doi"
  else if containsSub lower (str "arxiv") then str "preprint"
  else if containsSub lower (str "isbn") then str "book"
  else if [str "journal", str "proceedings", str "conference"].any
      (fun w => containsSub lower w) then str "journal"
  else if hasParenYear citationText then str "author_year"
  else str "unknown"

/-- The overlap test of `AcademicNER._remove_overlaps`:
`citation.start < selected.end and citation.end > selected.start`. -/
def overlapsB (a b : Citation) : Bool :=
  decide (a.start < b.stop) && decide (a.stop > b.start)

/-- Stable insertion of `x` into a list sorted by the strict relation `lt`:
`x` is placed before the first element not strictly below it, so elements
comparing equal keep their original relative order. -/
def insertStable (lt : α → α → Bool) (x : α) : List α → List α
  | [] => [x]
  | y :: ys => if lt y x then y :: insertStable lt x ys else x :: y :: ys

/-- Stable sort by the strict relation `lt` (the behaviour of Python's
stable `sorted`). -/
def sortStable (lt : α → α → Bool) : List α → List α
  | [] => []
  | x :: xs => insertStable lt x (sortStable lt xs)

/-- `sorted(citations, key=lambda c: c.confidence, reverse=True)`:
descending confidence, stable. -/
def sortByConfDesc (cs : List Citation) : List Citation :=
  sortStable (fun y x => decide (y.confidence > x.confidence)) cs

/-- `sorted(citations, key=lambda c: c.start)`: ascending start, stable. -/
def sortByStart (cs : List Citation) : List Citation :=
  sortStable (fun y x => decide (y.start < x.start)) cs

/-- The greedy acceptance loop of `AcademicNER._remove_overlaps`: walk the
confidence-sorted list, appending each citation that overlaps no
already-accepted one. -/
def greedyAccept (acc : List Citation) : List Citation → List Citation
  | [] => acc
  | c :: rest =>
    if acc.any (fun s => overlapsB c s) then greedyAccept acc rest
    else greedyAccept (acc ++ [c]) rest

/-- `AcademicNER._remove_overlaps`. -/
def removeOverlaps (citations : List Citation) : List Citation :=
  if citations = [] then citations
  else greedyAccept [] (sortByConfDesc citations)

/-- The per-match body of the `finditer` loop of
`AcademicNER.extract_citations`: strip the matched text, score it, drop it
when the confidence is below 0.3, otherwise build a `Citation`. -/
def survivingCitations (text : Str) (ms : List RawMatch) : List Citation :=
  ms.filterMap (fun m =>
    let citationText := stripWs m.text
    let confidence := calculateConfidence citationText text m.patternIdx
    if confidence < 0.3 then none
    else some { text := citationText, start := m.start, stop := m.stop,
                citationType := classifyCitationType citationText,
                confidence := confidence })

/-- `AcademicNER.extract_citations`, from the raw matches on: score and
filter, remove overlaps, sort by start offset. -/
def extractCitations (text : Str) (ms : List RawMatch) : List Citation :=
  sortByStart (removeOverlaps (survivingCitations text ms))

/-! ## Regex matching primitives

Deterministic matchers for the concrete patterns of
`src/models/citation_parser.py`.  Quantifiers are matched greedily; as every
quantified class in those patterns is disjoint from the character required
next, this agrees with the regex engine's backtracking search.  `re.search`
semantics (leftmost match) are given by scanning start positions left to
right. -/

/-- Greedy `p*`: the longest run satisfying `p`, and the remainder. -/
def spanP (p : Char → Bool) (s : Str) : Str × Str := (s.takeWhile p, s.dropWhile p)

/-- Case-sensitive literal; on success returns the remainder. -/
def litTake : Str → Str → Option Str
  | [], s => some s
  | _ :: _, [] => none
  | l :: ls, c :: cs => if c = l then litTake ls cs else none

/-- Case-insensitive literal (given lower-case); on success returns the
matched original characters and the remainder. -/
def ciTake : Str → Str → Option (Str × Str)
  | [], s => some ([], s)
  | _ :: _, [] => none
  | l :: ls, c :: cs =>
    if c.toLower = l then (ciTake ls cs).map (fun m => (c :: m.1, m.2)) else none

/-- `re.search`: try the matcher at each start position, leftmost first. -/
def scanOpt (f : Str → Option α) : Str → Option α
  | [] => f []
  | s@(_ :: rest) => (f s).orElse (fun _ => scanOpt f rest)

/-- `re.search` returning the start index of the leftmost position where the
suffix predicate holds. -/
def scanIdx (p : Str → Bool) : Nat → Str → Option Nat
  | i, [] => if p [] then some i else none
  | i, s@(_ :: rest) => if p s then some i else scanIdx p (i + 1) rest

/-- Matcher for `doi:\s*10\.\d+/[^\s,]+` (compiled with `re.IGNORECASE`)
anchored at the current position; returns `match.group()`, the full matched
text in its original spelling. -/
def doiTokenAt (s : Str) : Option Str :=
  match ciTake (str "doi:") s with
  | none => none
  | some (pre4, r1) =>
    let ws := spanP isPySpace r1
    match litTake (str "10.") ws.2 with
    | none => none
    | some r3 =>
      let ds := spanP isDigitC r3
      if ds.1 = [] then none
      else match ds.2 with
        | '/' :: r5 =>
          let body := spanP (fun c => !isPySpace c && c ≠ ',') r5
          if body.1 = [] then none
          else some (pre4 ++ (ws.1 ++ (str "10." ++ (ds.1 ++ '/' :: body.1))))
        | _ => none

/-- Matcher for `doi\.org/(10\.\d+/[^\s\)]+)` (case-sensitive) anchored at
the current position; returns `match.group(1)`. -/
def doiUrlAt (s : Str) : Option Str :=
  match litTake (str "doi.org/") s with
  | none => none
  | some r1 =>
    match litTake (str "10.") r1 with
    | none => none
    | some r2 =>
      let ds := spanP isDigitC r2
      if ds.1 = [] then none
      else match ds.2 with
        | '/' :: r4 =>
          let body := spanP (fun c => !isPySpace c && c ≠ ')') r4
          if body.1 = [] then none
          else some (str "10." ++ (ds.1 ++ '/' :: body.1))
        | _ => none

/-- Matcher for `arXiv:\s*(\d+\.\d+)` (`re.IGNORECASE`); returns
`match.group(1)`. -/
def arxivTokenAt (s : Str) : Option Str :=
  match ciTake (str "arxiv:") s with
  | none => none
  | some (_, r1) =>
    let ws := spanP isPySpace r1
    let d1 := spanP isDigitC ws.2
    if d1.1 = [] then none
    else match d1.2 with
      | '.' :: r3 =>
        let d2 := spanP isDigitC r3
        if d2.1 = [] then none else some (d1.1 ++ '.' :: d2.1)
      | _ => none

/-- Matcher for `arxiv\.org/abs/(\d+\.\d+)` (case-sensitive); returns
`match.group(1)`. -/
def arxivUrlAt (s : Str) : Option Str :=
  match litTake (str "arxiv.org/abs/") s with
  | none => none
  | some r1 =>
    let d1 := spanP isDigitC r1
    if d1.1 = [] then none
    else match d1.2 with
      | '.' :: r3 =>
        let d2 := spanP isDigitC r3
        if d2.1 = [] then none else some (d1.1 ++ '.' :: d2.1)
      | _ => none

/-- Matcher for `pmid:\s*(\d+)` (`re.IGNORECASE`); returns `match.group(1)`. -/
def pmidAt (s : Str) : Option Str :=
  match ciTake (str "pmid:") s with
  | none => none
  | some (_, r1) =>
    let ds := spanP isDigitC (r1.dropWhile isPySpace)
    if ds.1 = [] then none else some ds.1

/-- Consume one optional leading `'.'` (the greedy `\.?`). -/
def dropDot : Str → Str
  | '.' :: r => r
  | s => s

/-- The `(?:,\s*[A-Z]\.?)*` loop of the `authors_et_al` pattern, with a
fuel parameter to keep the recursion structural: greedily consume
comma-separated initials, returning the remainder.  Each iteration consumes
at least two characters, so `fuel = s.length` never runs out. -/
def commaGroupsF : Nat → Str → Str
  | 0, s => s
  | fuel + 1, s =>
    match s with
    | ',' :: r =>
      match r.dropWhile isPySpace with
      | d :: r3 =>
        if isLetterAZ d then commaGroupsF fuel (dropDot r3)
        else s
      | [] => s
    | _ => s

/-- The `(?:,\s*[A-Z]\.?)*` loop of the `authors_et_al` pattern. -/
def commaGroups (s : Str) : Str := commaGroupsF s.length s

/-- Matcher for `([A-Z][a-zA-Z\-]+)(?:,\s*[A-Z]\.?)*\s+et al\.?`
(`re.IGNORECASE`, so `[A-Z]` matches any ASCII letter); returns
`match.group(1)`, the author name. -/
def etAlAt (s : Str) : Option Str :=
  match s with
  | [] => none
  | c :: rest =>
    if isLetterAZ c then
      let nm := spanP (fun d => isLetterAZ d || d = '-') rest
      if nm.1 = [] then none
      else
        let r2 := commaGroups nm.2
        let ws := spanP isPySpace r2
        if ws.1 = [] then none
        else match ciTake (str "et al") ws.2 with
          | some _ => some (c :: nm.1)
          | none => none
    else none

/-- Matcher for `by\s+([A-Z][a-zA-Z\-]+)` (case-sensitive); returns
`match.group(1)`. -/
def byAuthorAt (s : Str) : Option Str :=
  match litTake (str "by") s with
  | none => none
  | some r1 =>
    let ws := spanP isPySpace r1
    if ws.1 = [] then none
    else match ws.2 with
      | d :: r3 =>
        if isUpperAZ d then
          let nm := spanP (fun e => isLetterAZ e || e = '-') r3
          if nm.1 = [] then none else some (d :: nm.1)
        else none
      | [] => none

/-- Matcher for `"([^"]+)"` anchored at the current position; returns
`match.group(1)`. -/
def quotedAt (s : Str) : Option Str :=
  match s with
  | '"' :: r =>
    let q := spanP (fun c => c ≠ '"') r
    if q.1 = [] then none
    else match q.2 with
      | '"' :: _ => some q.1
      | _ => none
  | _ => none

/-- The `\b(19|20)\d{2}\b` year match anchored at the current position,
given the preceding character (for the left word boundary). -/
def yearAt (prev : Option Char) (s : Str) : Option Str :=
  let leftOk := match prev with
    | none => true
    | some c => !isWordChar c
  if leftOk then
    match s with
    | c1 :: c2 :: c3 :: c4 :: rest =>
      if ((c1 = '1' && c2 = '9') || (c1 = '2' && c2 = '0'))
          && isDigitC c3 && isDigitC c4
          && (match rest with | [] => true | d :: _ => !isWordChar d) then
        some [c1, c2, c3, c4]
      else none
    | _ => none
  else none

/-- `re.search` for the year pattern, tracking index and preceding
character; returns `(match.start(), match.group())`. -/
def scanYearFrom (prev : Option Char) (i : Nat) : Str → Option (Nat × Str)
  | [] => none
  | s@(c :: rest) =>
    match yearAt prev s with
    | some m => some (i, m)
    | none => scanYearFrom (some c) (i + 1) rest

/-- The `patterns["year"]` search of `_parse_with_regex`. -/
def yearSearch (s : Str) : Option (Nat × Str) := scanYearFrom none 0 s

/-! ## Citation structurer (`src/models/citation_parser.py`,
class `CitationParser`)

`StructuredCitation` keeps the fields that the verified properties and the
downstream consumers embedded here (`_calculate_match_score`,
`smart_citation_search`) read.  The pure payload fields `conference`,
`book_title`, `publisher`, `volume`, `issue` and `pages` — set and then
never consulted by any embedded function — are omitted. -/

/-- The dataclass `StructuredCitation` of `citation_parser.py`.  Optional
fields default to `None`; the regex path stores `""` for `journal`, which
is falsy in every downstream truthiness test, like `None`. -/
structure StructuredCitation where
  originalText : Str
  authors : List Str
  firstAuthor : Str
  title : Str
  year : Str
  journal : Option Str := none
  doi : Option Str := none
  arxivId : Option Str := none
  pmid : Option Str := none
  citationType : Str := str "unknown"
  confidence : ℚ := 0
  extractionMethod : Str := str "llm"
  deriving Repr

/-- Python truthiness of an optional string field (`None` and `""` are
falsy). -/
def optTruthy (o : Option Str) : Bool :=
  match o with
  | none => false
  | some s => s ≠ []

/-- Full match against `^(19|20)\d{2}$` (the year validation of
`_validate_and_clean`). -/
def isYearFormat (y : Str) : Bool :=
  match y with
  | [c1, c2, c3, c4] =>
    ((c1 = '1' && c2 = '9') || (c1 = '2' && c2 = '0')) && isDigitC c3 && isDigitC c4
  | _ => false

/-- The title cleanup of `_validate_and_clean`:
`citation.title.strip(". ") if citation.title else ""`. -/
def cleanTitle (s : Str) : Str := if s = [] then [] else stripChars isDotSpace s

/-- The author/year whitespace cleanup of `_validate_and_clean`. -/
def cleanField (s : Str) : Str := if s = [] then [] else stripWs s

/-- The year cleanup and `^(19|20)\d{2}$` validation of
`_validate_and_clean`. -/
def cleanYear (y : Str) : Str :=
  let y0 := cleanField y
  if y0 ≠ [] && !isYearFormat y0 then [] else y0

/-- The confidence adjustment of `_validate_and_clean`: +0.2 (capped at 1)
when title, first author and year are all present, −0.3 (floored at 0.1)
when the title is absent, unchanged otherwise. -/
def validatedConfidence (complete titleEmpty : Bool) (conf : ℚ) : ℚ :=
  if complete then qmin 1 (conf + 0.2)
  else if titleEmpty then qmax 0.1 (conf - 0.3)
  else conf

/-- `CitationParser._validate_and_clean`, applied to every parse path. -/
def validateAndClean (c : StructuredCitation) : StructuredCitation :=
  let title := cleanTitle c.title
  let firstAuthor := cleanField c.firstAuthor
  let year := cleanYear c.year
  let authors := c.authors.filterMap (fun a =>
    let s := stripWs a
    if s = [] then none else some s)
  let doi := c.doi.map (fun d =>
    if d ≠ [] && !hasPre (str "doi:") (lowerStr d) then str "doi:" ++ d else d)
  let arxivId := c.arxivId.map (fun a =>
    if a ≠ [] && !hasPre (str "arxiv:") (lowerStr a) then str "arXiv:" ++ a else a)
  let confidence := validatedConfidence
    (decide (title ≠ []) && decide (firstAuthor ≠ []) && decide (year ≠ []))
    (decide (title = [])) c.confidence
  { c with title := title, firstAuthor := firstAuthor, year := year,
           authors := authors, doi := doi, arxivId := arxivId,
           confidence := confidence }

/-! The locals of `CitationParser._parse_with_regex`, one definition per
local variable of the source. -/

/-- `arxiv_url_match` (group 1). -/
def regexArxivUrl (t : Str) : Option Str := scanOpt arxivUrlAt t

/-- `doi_url_match` (group 1). -/
def regexDoiUrl (t : Str) : Option Str := scanOpt doiUrlAt t

/-- `doi_match` (the full match). -/
def regexDoiTok (t : Str) : Option Str := scanOpt doiTokenAt t

/-- `arxiv_match` (group 1). -/
def regexArxivTok (t : Str) : Option Str := scanOpt arxivTokenAt t

/-- `pmid_match` (group 1). -/
def regexPmidTok (t : Str) : Option Str := scanOpt pmidAt t

/-- `year_match`: `(match.start(), match.group())`. -/
def regexYearM (t : Str) : Option (Nat × Str) := yearSearch t

/-- The fallback title heuristic of `_parse_with_regex`: cut the text after
the year at the first journal-indicator pattern (`\.`, `\s+[A-Z]`, `,\s`,
`\s+-\s+`, tried in that order) and strip `". ,"`. -/
def titleAfterYear (t : Str) (ypos : Nat) : Str :=
  let tl := t.drop (ypos + 4)
  let cut : Option Nat :=
    match scanIdx (fun s => match s with | '.' :: _ => true | _ => false) 0 tl with
    | some k => some k
    | none =>
      match scanIdx (fun s =>
          match s with
          | c :: r => isPySpace c &&
              (match r.dropWhile isPySpace with
               | d :: _ => isUpperAZ d
               | [] => false)
          | [] => false) 0 tl with
      | some k => some k
      | none =>
        match scanIdx (fun s =>
            match s with
            | ',' :: d :: _ => isPySpace d
            | _ => false) 0 tl with
        | some k => some k
        | none =>
          scanIdx (fun s =>
            let ws := spanP isPySpace s
            ws.1 ≠ [] &&
              (match ws.2 with
               | '-' :: r2 => (match r2 with | d :: _ => isPySpace d | [] => false)
               | _ => false)) 0 tl
  match cut with
  | some k => stripChars isDotSpaceComma (tl.take k)
  | none => []

/-- The `title` local: the first quoted group if any, else — when a year
was found — the after-year heuristic, else `""`. -/
def regexTitle (t : Str) : Str :=
  let title0 := (scanOpt quotedAt t).getD []
  if title0 = [] then
    match regexYearM t with
    | some m => titleAfterYear t m.1
    | none => []
  else title0

/-- The `first_author` local: the `et al.` pattern first, the `by Author`
pattern second. -/
def regexFirstAuthor (t : Str) : Str :=
  match scanOpt etAlAt t with
  | some a => a
  | none => (scanOpt byAuthorAt t).getD []

/-- The `authors` local (a one-element list when an author was found). -/
def regexAuthors (t : Str) : List Str :=
  if regexFirstAuthor t = [] then [] else [regexFirstAuthor t]

/-- The `citation_type` classification of `_parse_with_regex`. -/
def regexCitationType (t : Str) : Str :=
  let lower := lowerStr t
  if (regexArxivTok t).isSome || (regexArxivUrl t).isSome then str "preprint"
  else if (regexDoiTok t).isSome || (regexDoiUrl t).isSome then
    (if containsSub lower (str "journal") || containsSub lower (str "proceedings")
     then str "journal" else str "article")
  else if containsSub lower (str "conference") || containsSub lower (str "symposium") then
    str "conference"
  else if containsSub lower (str "book") || containsSub lower (str "press")
      || containsSub lower (str "publishing") || containsSub lower (str "textbook") then
    str "book"
  else str "unknown"

/-- The `arxiv_id` local: URL match preferred, `arXiv:` prefixed. -/
def regexArxivId (t : Str) : Option Str :=
  match regexArxivUrl t with
  | some g => some (str "arXiv:" ++ g)
  | none => (regexArxivTok t).map (fun g => str "arXiv:" ++ g)

/-- The `doi` local: URL match preferred (prefixed `doi:`), else the full
`doi:` token match as written. -/
def regexDoi (t : Str) : Option Str :=
  match regexDoiUrl t with
  | some g => some (str "doi:" ++ g)
  | none => regexDoiTok t

/-- The data-quality confidence of `_parse_with_regex`: 0.3 base, +0.2 for
a title, +0.2 for a first author, +0.1 for a year, +0.2 for an identifier,
capped at 0.8. -/
def regexConfidence (hasTitle hasAuthor hasYear hasId : Bool) : ℚ :=
  qmin 0.8 (0.3 + (if hasTitle then (0.2 : ℚ) else 0)
    + (if hasAuthor then (0.2 : ℚ) else 0)
    + (if hasYear then (0.1 : ℚ) else 0)
    + (if hasId then (0.2 : ℚ) else 0))

/-- `CitationParser._parse_with_regex` (the fields embedded here), followed
by `_validate_and_clean` as in the source. -/
def parseWithRegex (t : Str) : StructuredCitation :=
  validateAndClean
    { originalText := t
      authors := regexAuthors t
      firstAuthor := regexFirstAuthor t
      title := regexTitle t
      year := (regexYearM t).elim [] Prod.snd
      journal := some []
      citationType := regexCitationType t
      confidence := regexConfidence (regexTitle t ≠ []) (regexFirstAuthor t ≠ [])
        (regexYearM t).isSome ((regexArxivId t).isSome || (regexDoi t).isSome)
      extractionMethod := str "regex"
      doi := regexDoi t
      arxivId := regexArxivId t
      pmid := regexPmidTok t }

/-- The data the source reads out of the LLM's JSON reply in
`_parse_with_llm` (`parsed_data.get(...)` with the same defaults);
`confidence = none` models a missing or non-numeric `confidence` entry,
for which the source substitutes `0.8`. -/
structure LlmParsed where
  authors : List Str := []
  firstAuthor : Str := []
  title : Str := []
  year : Str := []
  journal : Option Str := none
  doi : Option Str := none
  arxivId : Option Str := none
  pmid : Option Str := none
  citationType : Str := str "unknown"
  confidence : Option ℚ := none
  deriving Repr

/-- `CitationParser._parse_with_llm` from the parsed JSON object on:
build the `StructuredCitation` and run `_validate_and_clean`.  The LLM
call, the JSON decoding and their failure modes (which raise and divert to
the regex path) are abstracted into the `LlmParsed` input. -/
def parseWithLlm (p : LlmParsed) (citationText : Str) : StructuredCitation :=
  validateAndClean
    { originalText := citationText
      authors := p.authors
      firstAuthor := p.firstAuthor
      title := p.title
      year := p.year
      journal := p.journal
      citationType := p.citationType
      confidence := p.confidence.getD 0.8
      extractionMethod := str "llm"
      doi := p.doi
      arxivId := p.arxivId
      pmid := p.pmid }

/-! ## Search records and the smart search
(`src/search/firecrawl_client.py`, `FirecrawlSearchClient`)

A search/validation result dict is modelled by `SRecord`; a missing
`confidence` key is `none` (the source reads it with `.get("confidence",
default)`).  The `metadata` sub-dict is payload never consulted by the
embedded functions and is omitted.  The network-facing resolvers
(`_validate_doi`, `_validate_arxiv`, `_validate_pubmed`) and `search` are
external capabilities, modelled as oracle functions in `SearchEnv`; a
resolver that fails or misses returns `none`, and a `search` call whose
exception the source catches and skips is modelled as returning `[]`. -/

/-- A result dict (`title`/`url`/`content`/`source` keys and the optional
`confidence` key). -/
structure SRecord where
  title : Str := []
  url : Str := []
  content : Str := []
  sourceTag : Str := []
  confidence : Option ℚ := none
  deriving Repr

/-- The external capabilities consumed by `smart_citation_search`. -/
structure SearchEnv where
  validateDoi : Str → Option SRecord
  validateArxiv : Str → Option SRecord
  validatePmid : Str → Option SRecord
  search : Str → Nat → List SRecord

/-- `FirecrawlSearchClient._try_direct_url_validation`: resolve DOI, arXiv
id and PMID in that order, keeping the successful results. -/
def tryDirectUrlValidation (env : SearchEnv) (c : StructuredCitation) : List SRecord :=
  (if optTruthy c.doi then (env.validateDoi (c.doi.getD [])).toList else [])
  ++ (if optTruthy c.arxivId then (env.validateArxiv (c.arxivId.getD [])).toList else [])
  ++ (if optTruthy c.pmid then (env.validatePmid (c.pmid.getD [])).toList else [])

/-- The `search_queries` list built inside `smart_citation_search`. -/
def smartQueries (c : StructuredCitation) : List Str :=
  (if optTruthy c.doi then [c.doi.getD []] else [])
  ++ (if optTruthy c.arxivId then [c.arxivId.getD []] else [])
  ++ (if c.firstAuthor ≠ [] && c.year ≠ [] && c.title ≠ [] then
        [c.firstAuthor ++ ' ' :: c.year ++ ' ' :: '"' ::
          (joinSpace ((splitWs c.title).take 6) ++ ['"'])]
      else [])
  ++ (if c.title ≠ [] then ['"' :: (c.title ++ ['"'])] else [])
  ++ (if c.firstAuthor ≠ [] && c.year ≠ [] then [c.firstAuthor ++ ' ' :: c.year] else [])

/-- The URL-deduplication loop shared by the search entry points: walk in
discovery order with a `seen_urls` set, keeping a record only when its
`url` is non-empty and unseen (first occurrence wins). -/
def dedupByUrl : List SRecord → List Str → List SRecord
  | [], _ => []
  | r :: rs, seen =>
    if r.url ≠ [] ∧ r.url ∉ seen then r :: dedupByUrl rs (r.url :: seen)
    else dedupByUrl rs seen

/-- `FirecrawlSearchClient.smart_citation_search` (its unused
`citation_text` parameter is dropped): direct validation, then — only when
no direct result has confidence above 0.9 — up to three web queries with
three results each, then URL deduplication and truncation to five.  The
source returns `unique_results[:5]` in discovery order. -/
def smartCitationSearch (env : SearchEnv) (c : StructuredCitation) : List SRecord :=
  let direct := tryDirectUrlValidation env c
  let webResults := ((smartQueries c).take 3).flatMap (fun q => env.search q 3)
  let allResults :=
    direct ++ (if direct.any (fun r => decide (r.confidence.getD 0 > 0.9)) then [] else webResults)
  (dedupByUrl allResults []).take 5

/-! ## Fact checker (`src/models/fact_checker.py`, class `FactChecker`) -/

/-- The dataclass `FactCheckResult`. -/
structure FactCheckResult where
  citation : Citation
  verificationStatus : Str
  confidence : ℚ
  sourcesFound : List SRecord
  explanation : Str
  searchQueriesUsed : List Str
  deriving Repr

/-- The error result built by the `except` branch of
`FactChecker.fact_check_citations` for a citation whose pipeline raised. -/
def errorResultFor (c : Citation) (msg : Str) : FactCheckResult :=
  { citation := c
    verificationStatus := str "error"
    confidence := 0
    sourcesFound := []
    explanation := str "Error during fact-checking: " ++ msg
    searchQueriesUsed := [] }

/-- The per-citation outcome of one iteration of
`fact_check_citations`: the checker's result, or the error result when the
checker raised.  `check` abstracts `_fact_check_single_citation` (which
performs network and LLM calls); `Except.error msg` models an exception
with `str(e) = msg`. -/
def resultFor (check : Citation → Except Str FactCheckResult) (c : Citation) :
    FactCheckResult :=
  match check c with
  | .ok r => r
  | .error e => errorResultFor c e

/-- The loop of `FactChecker.fact_check_citations`, also collecting the
trace of `progress_callback(progress, result)` invocations (the callback
itself is modelled as non-raising, as in every caller embedded here).
Returns `(results, callback trace)`. -/
def fccGo (check : Citation → Except Str FactCheckResult) (total : Nat) (hasCb : Bool) :
    Nat → List Citation → List FactCheckResult × List (ℚ × FactCheckResult)
  | _, [] => ([], [])
  | i, c :: rest =>
    let r := resultFor check c
    let rec0 := fccGo check total hasCb (i + 1) rest
    (r :: rec0.1, (if hasCb then [(((i : ℚ) + 1) / (total : ℚ), r)] else []) ++ rec0.2)

/-- `FactChecker.fact_check_citations(citations, progress_callback)`. -/
def factCheckCitations (check : Citation → Except Str FactCheckResult)
    (citations : List Citation) (hasCb : Bool) :
    List FactCheckResult × List (ℚ × FactCheckResult) :=
  fccGo check citations.length hasCb 0 citations

/-- The title points of `_calculate_match_score`: exact match 0.4,
substring either way 0.25, else proportional word overlap capped at 0.3. -/
def titlePoints (c : StructuredCitation) (src : SRecord) : ℚ :=
  if c.title ≠ [] then
    let ct := lowerStr c.title
    let st := lowerStr src.title
    if ct = st then 0.4
    else if containsSub st ct || containsSub ct st then 0.25
    else
      let tw := (splitWs ct).dedup
      let sw := (splitWs st).dedup
      let overlap := (tw.filter (fun w => sw.contains w)).length
      if overlap > 0 then qmin 0.3 ((overlap : ℚ) / (tw.length : ℚ) * 0.4) else 0
  else 0

/-- The title weight added to `max_score` when a title is present. -/
def titleWeight (c : StructuredCitation) : ℚ := if c.title ≠ [] then 0.4 else 0

/-- The first-author points: 0.3 when the (lower-cased) first author occurs
in the source content. -/
def authorPoints (c : StructuredCitation) (src : SRecord) : ℚ :=
  if c.firstAuthor ≠ [] &&
      containsSub (lowerStr src.content) (lowerStr c.firstAuthor) then 0.3 else 0

/-- The author weight. -/
def authorWeight (c : StructuredCitation) : ℚ := if c.firstAuthor ≠ [] then 0.3 else 0

/-- The year points: 0.2 when the year occurs (case-sensitively) in the
source content. -/
def yearPoints (c : StructuredCitation) (src : SRecord) : ℚ :=
  if c.year ≠ [] && containsSub src.content c.year then 0.2 else 0

/-- The year weight. -/
def yearWeight (c : StructuredCitation) : ℚ := if c.year ≠ [] then 0.2 else 0

/-- The journal points: 0.1 when the (truthy) journal occurs lower-cased in
the source content. -/
def journalPoints (c : StructuredCitation) (src : SRecord) : ℚ :=
  if optTruthy c.journal &&
      containsSub (lowerStr src.content) (lowerStr (c.journal.getD [])) then 0.1 else 0

/-- The journal weight. -/
def journalWeight (c : StructuredCitation) : ℚ := if optTruthy c.journal then 0.1 else 0

/-- `FactChecker._calculate_match_score(structured_citation, source)`:
the earned points, scaled by `0.5 + source_confidence * 0.5`, divided by
the weights of the fields actually present (0.0 when no field applies). -/
def matchScore (c : StructuredCitation) (src : SRecord) : ℚ :=
  let score := (titlePoints c src + authorPoints c src + yearPoints c src
      + journalPoints c src) * (0.5 + src.confidence.getD 0.5 * 0.5)
  let maxScore := titleWeight c + authorWeight c + yearWeight c + journalWeight c
  if maxScore > 0 then score / maxScore else 0

/-! ## Async task engine (`src/async_processor.py`, class `AsyncProcessor`)

The engine's mutable state is embedded explicitly.  Python object identity
matters: `run_task` closures mutate the `AsyncTask` *object*, which stays
observable through `self.tasks` only while the registry still maps its id
to it.  The model therefore keeps a heap of task objects (keyed by an
allocation counter) beside the `task_id → object` registry.  Wall-clock
time and thread interleavings are abstracted: each operation takes the
current time as a parameter, and the outcome of the worker thread of
`_run_with_timeout` (return, raise, or failure to finish within the
timeout) is an input to the `finish` transition.  Callbacks are opaque ids;
their invocations are recorded in a trace (an exception inside a callback
is printed and swallowed by the source, so it cannot affect the state). -/

/-- The Python `TaskStatus` enum. -/
inductive PTaskStatus where
  | pending
  | processing
  | completed
  | error
  deriving DecidableEq, Repr

/-- The dataclass `AsyncTask`, with results of type `V`. -/
structure PAsyncTask (V : Type) where
  id : Str
  status : PTaskStatus := .pending
  result : Option V := none
  error : Option Str := none
  createdAt : ℚ
  startedAt : Option ℚ := none
  completedAt : Option ℚ := none
  progress : ℚ := 0
  deriving Repr

/-- Python-dict lookup on an association list. -/
def alGet [DecidableEq κ] (m : List (κ × β)) (k : κ) : Option β :=
  match m with
  | [] => none
  | (k2, v) :: rest => if k2 = k then some v else alGet rest k

/-- Python-dict assignment: replace in place when the key exists (keeping
its position, as `dict` does), append otherwise. -/
def alSet [DecidableEq κ] (m : List (κ × β)) (k : κ) (v : β) : List (κ × β) :=
  match m with
  | [] => [(k, v)]
  | (k2, v2) :: rest => if k2 = k then (k2, v) :: rest else (k2, v2) :: alSet rest k v

/-- A recorded completion-callback invocation:
`callback(task_id, result)` on success, `callback(task_id, None,
error=err)` on failure. -/
inductive CbCall (V : Type) where
  | completed (cb : Nat) (taskId : Str) (result : Option V)
  | failed (cb : Nat) (taskId : Str) (error : Str)
  deriving Repr

/-- A Python exception value as far as `run_task` can distinguish it: its
`str()` rendering and whether its class matches the `except TimeoutError`
clause. -/
structure PyExc where
  isTimeoutError : Bool
  msg : Str
  deriving Repr

/-- What the worker thread of `_run_with_timeout` did: fail to finish
within the timeout, raise, or return (possibly `None`). -/
inductive WorkerOutcome (V : Type) where
  | timedOut
  | raised (e : PyExc)
  | returned (v : Option V)
  deriving Repr

/-- `AsyncProcessor._run_with_timeout`: raise `TimeoutError` when the
worker is still alive after the join, re-raise the worker's exception,
else return its result.  `tmsg` is the decimal rendering of the `timeout`
float interpolated into the message. -/
def runWithTimeout (tmsg : Str) (o : WorkerOutcome V) : Except PyExc (Option V) :=
  match o with
  | .timedOut =>
    .error { isTimeoutError := true
             msg := str "Function timed out after " ++ tmsg ++ str " seconds" }
  | .raised e => .error e
  | .returned v => .ok v

/-- The full engine state: `self.tasks` (ids to objects), the object heap,
`self.callbacks`, the allocation counter, and the callback-invocation
trace. -/
structure EngineState (V : Type) where
  tasks : List (Str × Nat) := []
  heap : List (Nat × PAsyncTask V) := []
  callbacks : List (Str × Nat) := []
  nextObj : Nat := 0
  trace : List (CbCall V) := []

/-- Apply `f` to the heap entry with key `obj`, leaving others alone. -/
def modifyEntry (obj : Nat) (f : τ → τ) (p : Nat × τ) : Nat × τ :=
  if p.1 = obj then (p.1, f p.2) else p

/-- Mutate the task object `obj` in the heap (a no-op when absent, as a
closure over a dead object would be). -/
def heapModify (s : EngineState V) (obj : Nat) (f : PAsyncTask V → PAsyncTask V) :
    EngineState V :=
  { s with heap := s.heap.map (modifyEntry obj f) }

/-- The registration part of `AsyncProcessor.create_task`: allocate a fresh
pending task object and bind the id to it (silently replacing any previous
binding, as `self.tasks[task_id] = task` does). -/
def createTask (s : EngineState V) (taskId : Str) (now : ℚ) : EngineState V :=
  { s with tasks := alSet s.tasks taskId s.nextObj
           heap := alSet s.heap s.nextObj { id := taskId, createdAt := now }
           nextObj := s.nextObj + 1 }

/-- `AsyncProcessor.register_callback`. -/
def registerCallback (s : EngineState V) (taskId : Str) (cb : Nat) : EngineState V :=
  { s with callbacks := alSet s.callbacks taskId cb }

/-- The start of `run_task`: mark the object `processing` and stamp
`started_at`. -/
def startRun (s : EngineState V) (obj : Nat) (now : ℚ) : EngineState V :=
  heapModify s obj (fun t => { t with status := .processing, startedAt := some now })

/-- The remainder of `run_task` after `_run_with_timeout` resolves: the
`try`/`except TimeoutError`/`except Exception` chain, terminal field
updates and the completion-callback invocation (when one is registered for
the task id). -/
def finishRun (s : EngineState V) (taskId : Str) (obj : Nat) (tmsg : Str)
    (o : WorkerOutcome V) (now : ℚ) : EngineState V :=
  match runWithTimeout tmsg o with
  | .ok v =>
    let s2 := heapModify s obj (fun t =>
      { t with result := v, status := .completed, completedAt := some now, progress := 1 })
    match alGet s2.callbacks taskId with
    | some cb => { s2 with trace := s2.trace ++ [.completed cb taskId v] }
    | none => s2
  | .error e =>
    let msg := if e.isTimeoutError then str "Timeout after " ++ tmsg ++ str " seconds"
      else e.msg
    let s2 := heapModify s obj (fun t =>
      { t with error := some msg, status := .error, completedAt := some now })
    match alGet s2.callbacks taskId with
    | some cb => { s2 with trace := s2.trace ++ [.failed cb taskId msg] }
    | none => s2

/-- `AsyncProcessor.get_task`: the registry binding resolved through the
heap (`self.tasks.get(task_id)`). -/
def getTask (s : EngineState V) (taskId : Str) : Option (PAsyncTask V) :=
  (alGet s.tasks taskId).bind (alGet s.heap)

/-- `AsyncProcessor.get_all_tasks` (`self.tasks.copy()`), resolved through
the heap. -/
def getAllTasks (s : EngineState V) : List (Str × PAsyncTask V) :=
  s.tasks.filterMap (fun p => (alGet s.heap p.2).map (fun t => (p.1, t)))

/-- Is the registry entry `p` evicted by `cleanup_old_tasks`
(`current_time - task.created_at > max_age`)? -/
def isOldEntry (s : EngineState V) (maxAge now : ℚ) (p : Str × Nat) : Bool :=
  match alGet s.heap p.2 with
  | some t => decide (now - t.createdAt > maxAge)
  | none => false

/-- `AsyncProcessor.cleanup_old_tasks`: drop old registry entries and their
callbacks. -/
def cleanupOldTasks (s : EngineState V) (maxAge now : ℚ) : EngineState V :=
  { s with
    tasks := s.tasks.filter (fun p => !isOldEntry s maxAge now p)
    callbacks := s.callbacks.filter (fun q =>
      !(s.tasks.any (fun p => p.1 = q.1 && isOldEntry s maxAge now p))) }

/-- One interface call or internal thread transition of the engine.  The
set of constructors is exactly the set of operations `AsyncProcessor`
defines that touch the state — in particular there is no progress-update
operation: `async_processor.update_progress` and
`register_progress_callback`, invoked by `src/backend_server.py` and
`src/app.py`, do not exist on the class and raise `AttributeError`. -/
inductive EngineEvent (V : Type) where
  | create (taskId : Str) (now : ℚ)
  | regCb (taskId : Str) (cb : Nat)
  | start (obj : Nat) (now : ℚ)
  | finish (taskId : Str) (obj : Nat) (tmsg : Str) (o : WorkerOutcome V) (now : ℚ)
  | cleanup (maxAge now : ℚ)

/-- The transition function of the engine. -/
def stepEngine (s : EngineState V) : EngineEvent V → EngineState V
  | .create taskId now => createTask s taskId now
  | .regCb taskId cb => registerCallback s taskId cb
  | .start obj now => startRun s obj now
  | .finish taskId obj tmsg o now => finishRun s taskId obj tmsg o now
  | .cleanup maxAge now => cleanupOldTasks s maxAge now

/-- The engine state after a sequence of operations from start-up. -/
def runEngine (events : List (EngineEvent V)) : EngineState V :=
  events.foldl stepEngine {}

/-! ## Association-list lemmas -/

theorem alGet_alSet_self [DecidableEq κ] (m : List (κ × β)) (k : κ) (v : β) :
    alGet (alSet m k v) k = some v := by
  induction m with
  | nil => simp [alSet, alGet]
  | cons p rest ih =>
    obtain ⟨k2, v2⟩ := p
    by_cases h : k2 = k
    · simp [alSet, alGet, h]
    · simp [alSet, alGet, h, ih]

theorem alGet_alSet_ne [DecidableEq κ] (m : List (κ × β)) (k k2 : κ) (v : β)
    (h : k2 ≠ k) : alGet (alSet m k v) k2 = alGet m k2 := by
  have hkk2 : k ≠ k2 := Ne.symm h
  induction m with
  | nil => simp [alSet, alGet, hkk2]
  | cons p rest ih =>
    obtain ⟨k3, v3⟩ := p
    by_cases h3 : k3 = k
    · subst h3
      simp [alSet, alGet, hkk2]
    · simp [alSet, alGet, h3, ih]

theorem modifyEntry_eq_self (obj : Nat) (f : τ → τ) (v : τ) :
    modifyEntry obj f (obj, v) = (obj, f v) := by
  rw [modifyEntry]
  exact if_pos rfl

theorem modifyEntry_eq_other (obj : Nat) (f : τ → τ) (k : Nat) (v : τ)
    (h : k ≠ obj) : modifyEntry obj f (k, v) = (k, v) := by
  rw [modifyEntry]
  exact if_neg h

theorem alGet_map_modify (m : List (Nat × τ)) (obj : Nat) (f : τ → τ) :
    alGet (m.map (modifyEntry obj f)) obj = (alGet m obj).map f := by
  induction m with
  | nil => simp [alGet]
  | cons p rest ih =>
    obtain ⟨k, v⟩ := p
    rw [List.map_cons]
    by_cases h : k = obj
    · subst h
      rw [modifyEntry_eq_self _ _ v]
      simp [alGet]
    · rw [modifyEntry_eq_other _ _ _ _ h]
      simp [alGet, h, ih]

theorem alGet_map_modify_ne (m : List (Nat × τ)) (obj obj2 : Nat) (f : τ → τ)
    (h : obj2 ≠ obj) :
    alGet (m.map (modifyEntry obj f)) obj2 = alGet m obj2 := by
  have h2 : obj ≠ obj2 := Ne.symm h
  induction m with
  | nil => simp [alGet]
  | cons p rest ih =>
    obtain ⟨k, v⟩ := p
    rw [List.map_cons]
    by_cases hk : k = obj
    · subst hk
      rw [modifyEntry_eq_self _ _ v]
      simp [alGet, h2, ih]
    · rw [modifyEntry_eq_other _ _ _ _ hk]
      simp [alGet, ih]

/-! ## The engine progress invariant

`AsyncProcessor` writes a task's `progress` field in exactly two places:
`0.0` at construction and `1.0` on successful completion.  No operation of
the class can store any other value (the `update_progress` method that
`backend_server.py` and `app.py` call does not exist). -/

/-- Every task object held by the engine has progress 0 or 1. -/
def ProgressInv (s : EngineState V) : Prop :=
  ∀ obj t, alGet s.heap obj = some t → t.progress = 0 ∨ t.progress = 1

theorem progressInv_heapModify {s : EngineState V} {f : PAsyncTask V → PAsyncTask V}
    (hf : ∀ t : PAsyncTask V, (t.progress = 0 ∨ t.progress = 1) →
      ((f t).progress = 0 ∨ (f t).progress = 1))
    (h : ProgressInv s) (obj : Nat) : ProgressInv (heapModify s obj f) := by
  intro obj2 t ht
  have hheap : (heapModify s obj f).heap = s.heap.map (modifyEntry obj f) := rfl
  rw [hheap] at ht
  by_cases he : obj2 = obj
  · subst he
    rw [alGet_map_modify] at ht
    cases hm : alGet s.heap obj2 with
    | none => rw [hm] at ht; simp at ht
    | some t0 =>
      rw [hm] at ht
      simp only [Option.map_some'] at ht
      cases ht
      exact hf t0 (h obj2 t0 hm)
  · rw [alGet_map_modify_ne _ _ _ _ he] at ht
    exact h obj2 t ht

theorem progressInv_step (s : EngineState V) (e : EngineEvent V)
    (h : ProgressInv s) : ProgressInv (stepEngine s e) := by
  cases e with
  | create taskId now =>
    intro obj t ht
    simp only [stepEngine, createTask] at ht
    by_cases he : obj = s.nextObj
    · subst he
      rw [alGet_alSet_self] at ht
      cases ht
      left; rfl
    · rw [alGet_alSet_ne _ _ _ _ he] at ht
      exact h obj t ht
  | regCb taskId cb => exact fun obj t ht => h obj t ht
  | start obj now =>
    exact progressInv_heapModify
      (f := fun t => { t with status := .processing, startedAt := some now })
      (fun t hp => hp) h obj
  | finish taskId obj tmsg o now =>
    show ProgressInv (finishRun s taskId obj tmsg o now)
    rw [finishRun]
    cases runWithTimeout tmsg o with
    | ok v =>
      dsimp only
      have hmod : ProgressInv (heapModify s obj (fun t =>
          { t with result := v, status := .completed,
                   completedAt := some now, progress := 1 })) :=
        progressInv_heapModify
          (f := fun t => { t with result := v, status := .completed,
                                  completedAt := some now, progress := 1 })
          (fun t hp => Or.inr rfl) h obj
      cases alGet (heapModify s obj _).callbacks taskId with
      | some cb => exact fun obj2 t ht => hmod obj2 t ht
      | none => exact hmod
    | error e =>
      dsimp only
      have hmod : ProgressInv (heapModify s obj (fun t =>
          { t with
              error := some (if e.isTimeoutError
                then str "Timeout after " ++ tmsg ++ str " seconds" else e.msg)
              status := .error, completedAt := some now })) :=
        progressInv_heapModify
          (f := fun t =>
            { t with
                error := some (if e.isTimeoutError
                  then str "Timeout after " ++ tmsg ++ str " seconds" else e.msg)
                status := .error, completedAt := some now })
          (fun t hp => hp) h obj
      cases alGet (heapModify s obj _).callbacks taskId with
      | some cb => exact fun obj2 t ht => hmod obj2 t ht
      | none => exact hmod
  | cleanup maxAge now => exact fun obj t ht => h obj t ht

theorem progressInv_runEngine (es : List (EngineEvent V)) :
    ProgressInv (runEngine es) := by
  rw [runEngine]
  have hinit : ProgressInv ({} : EngineState V) := by
    intro obj t ht
    simp [alGet] at ht
  generalize ({} : EngineState V) = s0 at hinit ⊢
  induction es generalizing s0 with
  | nil => exact hinit
  | cons e rest ih => exact ih _ (progressInv_step s0 e hinit)

/-! ## Key uniqueness of the task registry

Python dicts have unique keys; the association-list model re-establishes
this as an invariant of reachable engine states. -/

theorem alGet_eq_none_iff [DecidableEq κ] (m : List (κ × β)) (k : κ) :
    alGet m k = none ↔ k ∉ m.map Prod.fst := by
  induction m with
  | nil => simp [alGet]
  | cons p rest ih =>
    obtain ⟨k2, v2⟩ := p
    by_cases h : k2 = k
    · subst h
      simp [alGet]
    · simp [alGet, h, ih, Ne.symm h]

theorem alSet_map_fst [DecidableEq κ] (m : List (κ × β)) (k : κ) (v : β) :
    (alSet m k v).map Prod.fst
      = if k ∈ m.map Prod.fst then m.map Prod.fst else m.map Prod.fst ++ [k] := by
  induction m with
  | nil => simp [alSet]
  | cons p rest ih =>
    obtain ⟨k2, v2⟩ := p
    by_cases h : k2 = k
    · subst h
      simp [alSet]
    · simp only [alSet, if_neg h, List.map_cons, ih]
      by_cases hm : k ∈ rest.map Prod.fst
      · rw [if_pos hm, if_pos (by simp [hm])]
      · rw [if_neg hm, if_neg (by simp [hm, Ne.symm h])]
        simp

/-- Registry keys are pairwise distinct. -/
def TasksNodup (s : EngineState V) : Prop := (s.tasks.map Prod.fst).Nodup

theorem tasksNodup_step (s : EngineState V) (e : EngineEvent V)
    (h : TasksNodup s) : TasksNodup (stepEngine s e) := by
  cases e with
  | create taskId now =>
    show ((alSet s.tasks taskId s.nextObj).map Prod.fst).Nodup
    rw [alSet_map_fst]
    by_cases hm : taskId ∈ s.tasks.map Prod.fst
    · rw [if_pos hm]; exact h
    · rw [if_neg hm, List.nodup_append]
      refine ⟨h, List.nodup_singleton _, ?_⟩
      intro a hma hb
      rw [List.mem_singleton] at hb
      subst hb
      exact hm hma
  | regCb taskId cb => exact h
  | start obj now => exact h
  | finish taskId obj tmsg o now =>
    show TasksNodup (finishRun s taskId obj tmsg o now)
    rw [finishRun]
    cases runWithTimeout tmsg o with
    | ok v =>
      dsimp only
      cases alGet (heapModify s obj _).callbacks taskId with
      | some cb => exact h
      | none => exact h
    | error e =>
      dsimp only
      cases alGet (heapModify s obj _).callbacks taskId with
      | some cb => exact h
      | none => exact h
  | cleanup maxAge now =>
    show ((s.tasks.filter _).map Prod.fst).Nodup
    exact ((List.filter_sublist _).map Prod.fst).nodup h

theorem tasksNodup_runEngine (es : List (EngineEvent V)) :
    TasksNodup (runEngine es) := by
  rw [runEngine]
  have hinit : TasksNodup ({} : EngineState V) := List.nodup_nil
  generalize ({} : EngineState V) = s0 at hinit ⊢
  induction es generalizing s0 with
  | nil => exact hinit
  | cons e rest ih => exact ih _ (tasksNodup_step s0 e hinit)

/-- Under unique keys, the only entry of `alSet m k v` whose key is `k` is
`(k, v)` itself. -/
theorem mem_alSet_eq_key [DecidableEq κ] (m : List (κ × β)) (k : κ) (v : β)
    (hnd : (m.map Prod.fst).Nodup) (p : κ × β)
    (hp : p ∈ alSet m k v) (hk : p.1 = k) : p = (k, v) := by
  induction m with
  | nil =>
    rw [alSet] at hp
    exact List.mem_singleton.mp hp
  | cons q rest ih =>
    obtain ⟨k2, v2⟩ := q
    simp only [List.map_cons, List.nodup_cons] at hnd
    by_cases h : k2 = k
    · subst h
      simp only [alSet, if_pos rfl] at hp
      rcases List.mem_cons.mp hp with h1 | h2
      · obtain ⟨pk, pv⟩ := p
        simp at h1 hk
        simp [h1, hk]
      · exfalso
        exact hnd.1 (hk ▸ (List.mem_map.mpr ⟨p, h2, rfl⟩))
    · simp only [alSet, if_neg h] at hp
      rcases List.mem_cons.mp hp with h1 | h2
      · exfalso
        apply h
        rw [← hk, h1]
      · exact ih hnd.2 h2

/-! ## Claim C1 -/

/-- C1: the specification asserts an `update_progress(task_id, fraction,
partial_result)` operation that sets a live task's `progress` to the given
fraction, observable through `get_task`.  `AsyncProcessor` defines no such
operation (the calls in `backend_server.py` and `app.py` raise
`AttributeError`): across every sequence of engine operations, a task
returned by `get_task` has progress 0 (set at creation) or 1 (set on
successful completion) — an intermediate fraction such as 0.5 is never
observable, contradicting the claim's scenario. -/
theorem C1_no_intermediate_progress (es : List (EngineEvent V)) (taskId : Str)
    (t : PAsyncTask V) (h : getTask (runEngine es) taskId = some t) :
    t.progress = 0 ∨ t.progress = 1 := by
  rw [getTask] at h
  cases hr : alGet (runEngine es).tasks taskId with
  | none => rw [hr] at h; simp at h
  | some obj =>
    rw [hr] at h
    exact progressInv_runEngine es obj t h

/-- Witness for C1 at a concrete run: one `create` call. -/
theorem C1_witness :
    (0 : ℚ) = 0 ∨ (0 : ℚ) = 1 :=
  C1_no_intermediate_progress (V := Nat) [.create (str "t") 0] (str "t")
    { id := str "t", createdAt := 0 } rfl

/-! ## Claim C6 -/

/-- C6 counterexample: a payload that itself raises `TimeoutError("custom")`
within the time budget is caught by the `except TimeoutError` clause of
`run_task`, so the task's error message is the engine's timeout message,
not the stringified exception `"custom"` — the claim's "stringified
exception" branch fails for this exception class. -/
theorem C6_counterexample :
    ((getTask (runEngine (V := Nat) [.create (str "t1") 0, .regCb (str "t1") 7,
        .start 0 1,
        .finish (str "t1") 0 (str "30.0")
          (.raised { isTimeoutError := true, msg := str "custom" }) 2])
        (str "t1")).map (fun t => t.error))
      = some (some (str "Timeout after 30.0 seconds"))
    ∧ str "Timeout after 30.0 seconds" ≠ str "custom" := by
  refine ⟨?_, by decide⟩
  · rfl

/-- C6 (amended): when the payload fails to return within the timeout, the
task reaches `error` with message `"Timeout after {t} seconds"`; when it
raises an exception that is *not* a `TimeoutError`, the task reaches
`error` with the stringified exception; in both cases `completed_at` is
stamped and the registered completion callback is invoked with the error.
(A `TimeoutError` raised by the payload itself is reported with the
engine's timeout message — see the counterexample.) -/
theorem C6_timeout_and_exception (s : EngineState V) (taskId : Str) (obj : Nat)
    (tmsg : Str) (now : ℚ) (t : PAsyncTask V) (cb : Nat)
    (ht : alGet s.heap obj = some t)
    (hcb : alGet s.callbacks taskId = some cb) :
    (alGet (finishRun s taskId obj tmsg .timedOut now).heap obj
        = some { t with status := .error,
                        error := some (str "Timeout after " ++ tmsg ++ str " seconds"),
                        completedAt := some now }
      ∧ (finishRun s taskId obj tmsg .timedOut now).trace
        = s.trace ++ [.failed cb taskId (str "Timeout after " ++ tmsg ++ str " seconds")])
    ∧ ∀ exc : PyExc, exc.isTimeoutError = false →
      (alGet (finishRun s taskId obj tmsg (.raised exc) now).heap obj
          = some { t with status := .error, error := some exc.msg,
                          completedAt := some now }
        ∧ (finishRun s taskId obj tmsg (.raised exc) now).trace
          = s.trace ++ [.failed cb taskId exc.msg]) := by
  constructor
  · rw [finishRun, runWithTimeout]
    dsimp only
    rw [if_pos rfl]
    have hc : alGet (heapModify s obj (fun t =>
        { t with error := some (str "Timeout after " ++ tmsg ++ str " seconds"),
                 status := .error, completedAt := some now })).callbacks taskId
        = some cb := hcb
    rw [hc]
    constructor
    · have hh : (heapModify s obj (fun t =>
          { t with error := some (str "Timeout after " ++ tmsg ++ str " seconds"),
                   status := .error, completedAt := some now })).heap
          = s.heap.map (modifyEntry obj (fun t =>
              { t with error := some (str "Timeout after " ++ tmsg ++ str " seconds"),
                       status := .error, completedAt := some now })) := rfl
      show alGet (s.heap.map (modifyEntry obj _)) obj = _
      rw [alGet_map_modify, ht]
      rfl
    · rfl
  · intro exc hexc
    rw [finishRun, runWithTimeout]
    dsimp only
    rw [hexc]
    rw [if_neg (by simp)]
    have hc : alGet (heapModify s obj (fun t =>
        { t with error := some exc.msg,
                 status := .error, completedAt := some now })).callbacks taskId
        = some cb := hcb
    rw [hc]
    constructor
    · show alGet (s.heap.map (modifyEntry obj _)) obj = _
      rw [alGet_map_modify, ht]
      rfl
    · rfl

/-- Witness for C6 (amended) at a concrete state. -/
theorem C6_witness :
    (alGet (finishRun (createTask (registerCallback ({} : EngineState Nat)
          (str "w") 3) (str "w") 0) (str "w") 0 (str "1.0") .timedOut 5).heap 0
        = some { id := str "w", createdAt := 0, status := .error,
                 error := some (str "Timeout after 1.0 seconds"),
                 completedAt := some 5 })
    ∧ (finishRun (createTask (registerCallback ({} : EngineState Nat)
          (str "w") 3) (str "w") 0) (str "w") 0 (str "1.0") .timedOut 5).trace
        = [.failed 3 (str "w") (str "Timeout after 1.0 seconds")] := by
  have h := C6_timeout_and_exception
    (createTask (registerCallback ({} : EngineState Nat) (str "w") 3) (str "w") 0)
    (str "w") 0 (str "1.0") 5 { id := str "w", createdAt := 0 } 3 rfl rfl
  exact ⟨h.1.1, h.1.2⟩

/-! ## Claim C10 -/

/-- C10: `create_task` with an id already in the registry raises nothing
and silently rebinds the id: afterwards `get_task` returns the fresh
pending task, and every `get_all_tasks()` entry under that id is the fresh
task — the old task object is unreachable through the engine's interface. -/
theorem C10_create_replaces (es : List (EngineEvent V)) (taskId : Str) (now : ℚ) :
    getTask (stepEngine (runEngine es) (.create taskId now)) taskId
      = some { id := taskId, createdAt := now }
    ∧ ∀ p ∈ getAllTasks (stepEngine (runEngine es) (.create taskId now)),
        p.1 = taskId → p.2 = { id := taskId, createdAt := now } := by
  set s := runEngine es with hs
  constructor
  · show (alGet (alSet s.tasks taskId s.nextObj) taskId).bind
        (alGet (alSet s.heap s.nextObj { id := taskId, createdAt := now })) = _
    rw [alGet_alSet_self]
    show alGet (alSet s.heap s.nextObj { id := taskId, createdAt := now }) s.nextObj = _
    rw [alGet_alSet_self]
  · intro p hp hk
    rw [getAllTasks] at hp
    rcases List.mem_filterMap.mp hp with ⟨q, hq, hmap⟩
    have hq2 : q = (taskId, s.nextObj) := by
      have hnd : (s.tasks.map Prod.fst).Nodup := tasksNodup_runEngine es
      have : q.1 = taskId := by
        cases halg : alGet (stepEngine s (.create taskId now)).heap q.2 with
        | none => rw [halg] at hmap; simp at hmap
        | some t0 =>
          rw [halg] at hmap
          simp only [Option.map_some'] at hmap
          cases hmap
          exact hk
      exact mem_alSet_eq_key s.tasks taskId s.nextObj hnd q hq this
    subst hq2
    cases halg : alGet (stepEngine s (.create taskId now)).heap s.nextObj with
    | none =>
      rw [halg] at hmap
      simp at hmap
    | some t0 =>
      rw [halg] at hmap
      have hfresh : alGet (stepEngine s (.create taskId now)).heap s.nextObj
          = some { id := taskId, createdAt := now } := by
        show alGet (alSet s.heap s.nextObj { id := taskId, createdAt := now })
            s.nextObj = _
        rw [alGet_alSet_self]
      rw [halg] at hfresh
      cases hfresh
      simp only [Option.map_some'] at hmap
      cases hmap
      rfl

/-- Witness for C10 at a concrete run: re-creating an existing task id. -/
theorem C10_witness :
    getTask (stepEngine (runEngine (V := Nat)
        [.create (str "dup") 0, .start 0 1,
         .finish (str "dup") 0 (str "30.0") (.returned (some 42)) 2])
        (.create (str "dup") 9)) (str "dup")
      = some { id := str "dup", createdAt := 9 } := by
  exact (C10_create_replaces _ (str "dup") 9).1

/-! ## Claim C2 -/

theorem fccGo_fst (check : Citation → Except Str FactCheckResult) (total : Nat)
    (hasCb : Bool) : ∀ (i : Nat) (cs : List Citation),
    (fccGo check total hasCb i cs).1 = cs.map (resultFor check) := by
  intro i cs
  induction cs generalizing i with
  | nil => rfl
  | cons c rest ih =>
    rw [fccGo, List.map_cons]
    dsimp only
    rw [ih (i + 1)]

theorem fccGo_snd (check : Citation → Except Str FactCheckResult) (total : Nat)
    (hasCb : Bool) : ∀ (i : Nat) (cs : List Citation),
    (fccGo check total hasCb i cs).2
      = if hasCb then (cs.enumFrom i).map
          (fun p => (((p.1 : ℚ) + 1) / (total : ℚ), resultFor check p.2))
        else [] := by
  intro i cs
  induction cs generalizing i with
  | nil => cases hasCb <;> rfl
  | cons c rest ih =>
    rw [fccGo]
    dsimp only
    rw [ih (i + 1)]
    cases hasCb with
    | false => rfl
    | true => rw [List.enumFrom, List.map_cons]; rfl

/-- C2: `fact_check_citations` returns exactly one `FactCheckResult` per
input citation, in input order — the result list is the input list mapped
through the per-citation outcome, so an exception while checking citation
`i` becomes a `verification_status = "error"` result for that citation and
disturbs no other position — and, when a progress callback is supplied, it
is invoked exactly once per citation with fraction `(i+1)/total` and that
citation's result. -/
theorem C2_batch_shape (check : Citation → Except Str FactCheckResult)
    (cs : List Citation) (hasCb : Bool) :
    (factCheckCitations check cs hasCb).1.length = cs.length
    ∧ (factCheckCitations check cs hasCb).1 = cs.map (resultFor check)
    ∧ (∀ c e, check c = .error e →
        resultFor check c = errorResultFor c e
        ∧ (resultFor check c).verificationStatus = str "error"
        ∧ (resultFor check c).citation = c)
    ∧ (factCheckCitations check cs hasCb).2
      = (if hasCb then cs.enum.map
          (fun p => (((p.1 : ℚ) + 1) / (cs.length : ℚ), resultFor check p.2))
         else []) := by
  refine ⟨?_, ?_, ?_, ?_⟩
  · rw [factCheckCitations, fccGo_fst, List.length_map]
  · rw [factCheckCitations, fccGo_fst]
  · intro c e he
    rw [resultFor, he]
    exact ⟨rfl, rfl, rfl⟩
  · rw [factCheckCitations, fccGo_snd, List.enum]

/-- Witness for C2 on a one-citation batch whose checker raises. -/
theorem C2_witness :
    resultFor (fun _ => .error (str "boom"))
        { text := str "x", start := 0, stop := 1,
          citationType := str "unknown", confidence := 1 }
      = errorResultFor
        { text := str "x", start := 0, stop := 1,
          citationType := str "unknown", confidence := 1 } (str "boom")
    ∧ (factCheckCitations (fun _ => .error (str "boom"))
        [{ text := str "x", start := 0, stop := 1,
           citationType := str "unknown", confidence := 1 }] true).1.length = 1 := by
  have h := C2_batch_shape (fun _ => .error (str "boom"))
    [{ text := str "x", start := 0, stop := 1,
       citationType := str "unknown", confidence := 1 }] true
  exact ⟨(h.2.2.1 _ (str "boom") rfl).1, h.1⟩

/-! ## Claim C3: stable sorting and greedy overlap removal -/

theorem insertStable_perm (lt : α → α → Bool) (x : α) (l : List α) :
    List.Perm (insertStable lt x l) (x :: l) := by
  induction l with
  | nil => exact List.Perm.refl _
  | cons y ys ih =>
    rw [insertStable]
    by_cases h : lt y x = true
    · rw [if_pos h]
      exact (ih.cons y).trans (List.Perm.swap x y ys)
    · rw [if_neg h]

theorem sortStable_perm (lt : α → α → Bool) (l : List α) :
    List.Perm (sortStable lt l) l := by
  induction l with
  | nil => exact List.Perm.refl _
  | cons x xs ih =>
    rw [sortStable]
    exact (insertStable_perm lt x (sortStable lt xs)).trans (ih.cons x)

theorem insertStable_pairwise {lt : α → α → Bool} {le : α → α → Prop}
    (h1 : ∀ a b, lt a b = true → le a b)
    (h2 : ∀ a b, lt a b = false → le b a)
    (h3 : Transitive le)
    (x : α) : ∀ {l : List α}, l.Pairwise le → (insertStable lt x l).Pairwise le := by
  intro l
  induction l with
  | nil => intro _; simp [insertStable]
  | cons y ys ih =>
    intro hl
    rcases List.pairwise_cons.mp hl with ⟨hy, hys⟩
    rw [insertStable]
    by_cases h : lt y x = true
    · rw [if_pos h]
      refine List.pairwise_cons.mpr ⟨?_, ih hys⟩
      intro z hz
      rcases List.mem_cons.mp ((insertStable_perm lt x ys).mem_iff.mp hz) with rfl | hzys
      · exact h1 _ _ h
      · exact hy z hzys
    · rw [if_neg h]
      have hxy : le x y := h2 _ _ (Bool.not_eq_true _ ▸ h)
      refine List.pairwise_cons.mpr ⟨?_, hl⟩
      intro z hz
      rcases List.mem_cons.mp hz with rfl | hzys
      · exact hxy
      · exact h3 hxy (hy z hzys)

theorem sortStable_pairwise {lt : α → α → Bool} {le : α → α → Prop}
    (h1 : ∀ a b, lt a b = true → le a b)
    (h2 : ∀ a b, lt a b = false → le b a)
    (h3 : Transitive le)
    (l : List α) : (sortStable lt l).Pairwise le := by
  induction l with
  | nil => simp [sortStable]
  | cons x xs ih =>
    rw [sortStable]
    exact insertStable_pairwise h1 h2 h3 x ih

/-- The overlap predicate of the specification:
`a.start < b.end and a.end > b.start`. -/
def specOverlap (a b : Citation) : Prop := a.start < b.stop ∧ a.stop > b.start

theorem overlapsB_eq_false_iff (a b : Citation) :
    overlapsB a b = false ↔ ¬ specOverlap a b := by
  rw [overlapsB, specOverlap]
  rw [Bool.and_eq_false_iff]
  constructor
  · rintro (h | h) ⟨h1, h2⟩
    · exact absurd h1 (by simpa using h)
    · exact absurd h2 (by simpa using h)
  · intro h
    by_cases h1 : a.start < b.stop
    · right
      simp only [decide_eq_false_iff_not]
      exact fun h2 => h ⟨h1, h2⟩
    · left
      simpa using h1

theorem specOverlap_symm (a b : Citation) : specOverlap a b ↔ specOverlap b a := by
  rw [specOverlap, specOverlap]
  omega

theorem greedyAccept_pairwise :
    ∀ (l acc : List Citation),
    acc.Pairwise (fun a b => ¬ specOverlap a b) →
    (greedyAccept acc l).Pairwise (fun a b => ¬ specOverlap a b) := by
  intro l
  induction l with
  | nil => intro acc h; exact h
  | cons c rest ih =>
    intro acc h
    rw [greedyAccept]
    by_cases hov : acc.any (fun s => overlapsB c s) = true
    · rw [if_pos hov]
      exact ih acc h
    · rw [if_neg hov]
      apply ih
      rw [List.pairwise_append]
      refine ⟨h, by simp, ?_⟩
      intro a ha b hb
      rw [List.mem_singleton] at hb
      subst hb
      have hfalse : overlapsB b a = false := by
        cases hca : overlapsB b a with
        | false => rfl
        | true => exact absurd (List.any_eq_true.mpr ⟨a, ha, hca⟩) hov
      intro hover
      exact (overlapsB_eq_false_iff b a).mp hfalse ((specOverlap_symm a b).mp hover)

/-- The selection procedure the specification describes: sort the surviving
matches by descending confidence (stable), then accept each match exactly
when it overlaps no already-accepted one. -/
def greedySelect (survivors : List Citation) : List Citation :=
  greedyAccept [] (sortByConfDesc survivors)

theorem removeOverlaps_eq_greedySelect (cs : List Citation) :
    removeOverlaps cs = greedySelect cs := by
  rw [removeOverlaps, greedySelect]
  by_cases h : cs = []
  · subst h
    rfl
  · rw [if_neg h]

/-- C3: the list returned by `extract_citations` is sorted by start offset,
pairwise non-overlapping, and is (as a multiset — the final sort reorders
it by start) exactly the greedy maximal-confidence selection over the
surviving matches. -/
theorem C3_detector_selection (text : Str) (ms : List RawMatch) :
    (extractCitations text ms).Pairwise (fun a b => a.start ≤ b.start)
    ∧ (extractCitations text ms).Pairwise (fun a b => ¬ specOverlap a b)
    ∧ (extractCitations text ms).Perm (greedySelect (survivingCitations text ms)) := by
  have hperm : (extractCitations text ms).Perm
      (greedySelect (survivingCitations text ms)) := by
    rw [extractCitations, removeOverlaps_eq_greedySelect, sortByStart]
    exact sortStable_perm _ _
  refine ⟨?_, ?_, hperm⟩
  · rw [extractCitations, sortByStart]
    exact @sortStable_pairwise Citation (fun y x => decide (y.start < x.start))
      (fun a b => a.start ≤ b.start)
      (fun a b h => le_of_lt (of_decide_eq_true h))
      (fun a b h => le_of_not_lt (of_decide_eq_false h))
      (fun a b c hab hbc => le_trans hab hbc) _
  · have hgreedy : (greedySelect (survivingCitations text ms)).Pairwise
        (fun a b => ¬ specOverlap a b) :=
      greedyAccept_pairwise _ [] (List.Pairwise.nil)
    have hsymm : Symmetric (fun a b : Citation => ¬ specOverlap a b) := by
      intro a b h hover
      exact h ((specOverlap_symm b a).mp hover)
    exact (hperm.pairwise_iff (fun {a b} hab => hsymm hab)).mpr hgreedy

/-! ## Claim C9 -/

/-- The keyword-boost formula the claim asserts: +0.1 per keyword *family*
with at least one member present in the context window (at most +0.1 per
family), plus the format boost, capped at 1. -/
def claimFamilyConfidence (citationText fullText : Str) (patternIdx : Nat) : ℚ :=
  qmin 1 (baseConfidence patternIdx
    + ((academicKeywords.filter (fun fam =>
        fam.any (fun kw => containsSub (contextWindow citationText fullText) kw))).length : ℚ)
      * 0.1
    + (formatHits citationText : ℚ) * 0.1)

/-- C9 counterexample: for the ISBN match `"ISBN 123"` in
`"journal proceedings ISBN 123"` the context window contains two keywords
of the *same* family (`journal`, `proceedings`), so the code adds +0.2
where the claim's per-family boost adds +0.1: 1.0 versus 0.9. -/
theorem C9_counterexample :
    calculateConfidence (str "ISBN 123") (str "journal proceedings ISBN 123") 5
      ≠ claimFamilyConfidence (str "ISBN 123") (str "journal proceedings ISBN 123") 5 := by
  have h1 : keywordHits
      (contextWindow (str "ISBN 123") (str "journal proceedings ISBN 123")) = 2 := by
    decide
  have h2 : (academicKeywords.filter (fun fam =>
      fam.any (fun kw => containsSub
        (contextWindow (str "ISBN 123") (str "journal proceedings ISBN 123")) kw))).length
      = 1 := by decide
  have h3 : formatHits (str "ISBN 123") = 0 := by decide
  rw [calculateConfidence, claimFamilyConfidence, h1, h2, h3]
  norm_num [qmin, baseConfidence]

/-- C9 (amended): the adjusted confidence is
`min(1.0, base + keyword_boost + format_boost)` where `keyword_boost`
contributes +0.1 per *keyword* of each family found in the ±200-character
window (a family with several members present contributes 0.1 per member,
not 0.1 total), and `format_boost` adds +0.1 each for a 4-digit year, a
capitalised name-like token, and match length above 20. -/
theorem C9_per_keyword_boost (citationText fullText : Str) (patternIdx : Nat) :
    calculateConfidence citationText fullText patternIdx
      = qmin 1 (baseConfidence patternIdx
        + (academicKeywords.map (fun fam =>
            ((fam.filter (fun kw =>
              containsSub (contextWindow citationText fullText) kw)).length : ℚ) * 0.1)).sum
        + ((if hasFourDigits citationText then (0.1 : ℚ) else 0)
          + (if hasCapitalized citationText then (0.1 : ℚ) else 0)
          + (if citationText.length > 20 then (0.1 : ℚ) else 0))) := by
  rw [calculateConfidence]
  congr 1
  have hk : (keywordHits (contextWindow citationText fullText) : ℚ)
      = (academicKeywords.map (fun fam =>
          ((fam.filter (fun kw =>
            containsSub (contextWindow citationText fullText) kw)).length : ℚ))).sum := by
    rw [keywordHits]
    simp only [academicKeywords, List.flatten_cons, List.flatten_nil,
      List.filter_append, List.length_append, List.map_cons, List.map_nil,
      List.sum_cons, List.sum_nil, List.append_nil, List.filter_nil, List.length_nil]
    push_cast
    ring
  have hf : (formatHits citationText : ℚ) * 0.1
      = (if hasFourDigits citationText then (0.1 : ℚ) else 0)
        + (if hasCapitalized citationText then (0.1 : ℚ) else 0)
        + (if citationText.length > 20 then (0.1 : ℚ) else 0) := by
    rw [formatHits]
    push_cast
    by_cases h1 : hasFourDigits citationText <;>
      by_cases h2 : hasCapitalized citationText <;>
        by_cases h3 : citationText.length > 20 <;>
          simp [h1, h2, h3] <;> ring
  have hsplit : (academicKeywords.map (fun fam =>
      ((fam.filter (fun kw =>
        containsSub (contextWindow citationText fullText) kw)).length : ℚ) * 0.1)).sum
      = (academicKeywords.map (fun fam =>
          ((fam.filter (fun kw =>
            containsSub (contextWindow citationText fullText) kw)).length : ℚ))).sum * 0.1 := by
    simp only [academicKeywords, List.map_cons, List.map_nil, List.sum_cons, List.sum_nil]
    ring
  rw [hf, hk, hsplit]

/-! ## Claim C4: confidence bounds at the component boundaries -/

theorem qmin_eq_min (a b : ℚ) : qmin a b = min a b := by
  rw [qmin, min_def]

theorem qmax_eq_max (a b : ℚ) : qmax a b = max a b := by
  rw [qmax, max_def]

theorem baseConfidence_mem (i : Nat) :
    0 ≤ baseConfidence i ∧ baseConfidence i ≤ 1 := by
  have h : baseConfidence i = 0.9 ∨ baseConfidence i = 0.95 ∨ baseConfidence i = 0.85
      ∨ baseConfidence i = 0.99 ∨ baseConfidence i = 0.8 ∨ baseConfidence i = 0.5 := by
    rcases i with _|_|_|_|_|_|_|i
    · exact Or.inl rfl
    · exact Or.inr (Or.inl rfl)
    · exact Or.inr (Or.inr (Or.inl rfl))
    · exact Or.inr (Or.inr (Or.inr (Or.inl rfl)))
    · exact Or.inr (Or.inr (Or.inr (Or.inl rfl)))
    · exact Or.inr (Or.inr (Or.inr (Or.inr (Or.inl rfl))))
    · exact Or.inl rfl
    · exact Or.inr (Or.inr (Or.inr (Or.inr (Or.inr rfl))))
  rcases h with h|h|h|h|h|h <;> rw [h] <;> constructor <;> norm_num

theorem calculateConfidence_mem (ct ft : Str) (i : Nat) :
    0 ≤ calculateConfidence ct ft i ∧ calculateConfidence ct ft i ≤ 1 := by
  rw [calculateConfidence, qmin_eq_min]
  constructor
  · apply le_min (by norm_num)
    have hb := (baseConfidence_mem i).1
    have hk : (0 : ℚ) ≤ (keywordHits (contextWindow ct ft) : ℚ) * 0.1 := by positivity
    have hf : (0 : ℚ) ≤ (formatHits ct : ℚ) * 0.1 := by positivity
    linarith
  · exact min_le_left _ _

theorem validatedConfidence_bound (b1 b2 : Bool) (conf : ℚ)
    (h0 : 0 ≤ conf) (h1 : conf ≤ 1) :
    0 ≤ validatedConfidence b1 b2 conf ∧ validatedConfidence b1 b2 conf ≤ 1 := by
  rw [validatedConfidence]
  cases b1 with
  | true =>
    rw [if_pos rfl, qmin_eq_min]
    constructor
    · apply le_min (by norm_num)
      linarith
    · exact min_le_left _ _
  | false =>
    rw [if_neg (by simp)]
    cases b2 with
    | true =>
      rw [if_pos rfl, qmax_eq_max]
      constructor
      · exact le_max_of_le_left (by norm_num)
      · apply max_le (by norm_num)
        linarith
    | false =>
      rw [if_neg (by simp)]
      exact ⟨h0, h1⟩

theorem regexConfidence_mem (a b c d : Bool) :
    0.3 ≤ regexConfidence a b c d ∧ regexConfidence a b c d ≤ 0.8 := by
  rw [regexConfidence, qmin_eq_min]
  constructor
  · apply le_min (by norm_num)
    cases a <;> cases b <;> cases c <;> cases d <;> norm_num
  · exact min_le_left _ _

/-- The confidence of the regex parse, as computed by the source: the
data-quality confidence fed through the `_validate_and_clean` adjustment. -/
theorem parseWithRegex_confidence (t : Str) :
    (parseWithRegex t).confidence
      = validatedConfidence
          (decide (cleanTitle (regexTitle t) ≠ [])
            && decide (cleanField (regexFirstAuthor t) ≠ [])
            && decide (cleanYear ((regexYearM t).elim [] Prod.snd) ≠ []))
          (decide (cleanTitle (regexTitle t) = []))
          (regexConfidence (regexTitle t ≠ []) (regexFirstAuthor t ≠ [])
            (regexYearM t).isSome ((regexArxivId t).isSome || (regexDoi t).isSome)) := rfl

theorem parseWithRegex_title (t : Str) :
    (parseWithRegex t).title = cleanTitle (regexTitle t) := rfl

theorem parseWithRegex_firstAuthor (t : Str) :
    (parseWithRegex t).firstAuthor = cleanField (regexFirstAuthor t) := rfl

theorem parseWithRegex_year (t : Str) :
    (parseWithRegex t).year = cleanYear ((regexYearM t).elim [] Prod.snd) := rfl

theorem parseWithRegex_doi (t : Str) :
    (parseWithRegex t).doi = (regexDoi t).map (fun d =>
      if d ≠ [] && !hasPre (str "doi:") (lowerStr d) then str "doi:" ++ d else d) := rfl

theorem parseWithLlm_confidence (p : LlmParsed) (t : Str) :
    (parseWithLlm p t).confidence
      = validatedConfidence
          (decide (cleanTitle p.title ≠ [])
            && decide (cleanField p.firstAuthor ≠ [])
            && decide (cleanYear p.year ≠ []))
          (decide (cleanTitle p.title = []))
          (p.confidence.getD 0.8) := rfl

/-- C4 counterexample: the LLM path never clamps the backend-reported
confidence.  A reply with `confidence = 5.0` and a title but no author
passes `_validate_and_clean` unchanged, so the produced
`StructuredCitation` has confidence 5 > 1. -/
theorem C4_counterexample :
    ¬ ((parseWithLlm { title := str "T", confidence := some 5 }
        (str "x")).confidence ≤ 1) := by
  have h5 : (parseWithLlm { title := str "T", confidence := some 5 }
      (str "x")).confidence = 5 := by
    rw [parseWithLlm_confidence]
    show validatedConfidence
        (decide (cleanTitle (str "T") ≠ [])
          && decide (cleanField ([] : Str) ≠ [])
          && decide (cleanYear ([] : Str) ≠ []))
        (decide (cleanTitle (str "T") = []))
        ((some (5 : ℚ)).getD 0.8) = 5
    have hb1 : (decide (cleanTitle (str "T") ≠ [])
        && decide (cleanField ([] : Str) ≠ [])
        && decide (cleanYear ([] : Str) ≠ [])) = false := by decide
    have hb2 : (decide (cleanTitle (str "T") = [])) = false := by decide
    rw [hb1, hb2, validatedConfidence]
    rw [if_neg (by simp), if_neg (by simp)]
    rfl
  rw [h5]
  norm_num

theorem titlePoints_bounds (c : StructuredCitation) (src : SRecord) :
    0 ≤ titlePoints c src ∧ titlePoints c src ≤ titleWeight c := by
  rw [titlePoints, titleWeight]
  by_cases ht : c.title ≠ []
  · rw [if_pos ht, if_pos ht]
    dsimp only
    split_ifs with h1 h2 h3
    · norm_num
    · norm_num
    · rw [qmin_eq_min]
      constructor
      · apply le_min (by norm_num)
        positivity
      · calc min (0.3 : ℚ) _ ≤ 0.3 := min_le_left _ _
          _ ≤ 0.4 := by norm_num
    · norm_num
  · rw [if_neg ht, if_neg ht]
    norm_num

theorem authorPoints_bounds (c : StructuredCitation) (src : SRecord) :
    0 ≤ authorPoints c src ∧ authorPoints c src ≤ authorWeight c := by
  rw [authorPoints, authorWeight]
  by_cases h : c.firstAuthor ≠ []
  · rw [if_pos h]
    split_ifs <;> norm_num
  · rw [if_neg h]
    have hb : (decide (c.firstAuthor ≠ []) &&
        containsSub (lowerStr src.content) (lowerStr c.firstAuthor)) = false := by
      rw [decide_eq_false h]
      rfl
    rw [if_neg (by rw [hb]; simp)]
    norm_num

theorem yearPoints_bounds (c : StructuredCitation) (src : SRecord) :
    0 ≤ yearPoints c src ∧ yearPoints c src ≤ yearWeight c := by
  rw [yearPoints, yearWeight]
  by_cases h : c.year ≠ []
  · rw [if_pos h]
    split_ifs <;> norm_num
  · rw [if_neg h]
    have hb : (decide (c.year ≠ []) && containsSub src.content c.year) = false := by
      rw [decide_eq_false h]
      rfl
    rw [if_neg (by rw [hb]; simp)]
    norm_num

theorem journalPoints_bounds (c : StructuredCitation) (src : SRecord) :
    0 ≤ journalPoints c src ∧ journalPoints c src ≤ journalWeight c := by
  rw [journalPoints, journalWeight]
  by_cases h : optTruthy c.journal = true
  · rw [if_pos h]
    split_ifs <;> norm_num
  · rw [if_neg h]
    have hb : (optTruthy c.journal &&
        containsSub (lowerStr src.content) (lowerStr (c.journal.getD []))) = false := by
      rw [Bool.eq_false_iff.mpr h]
      rfl
    rw [if_neg (by rw [hb]; simp)]
    norm_num

theorem matchScore_mem (c : StructuredCitation) (src : SRecord)
    (h : ∀ q ∈ src.confidence, 0 ≤ q ∧ q ≤ 1) :
    0 ≤ matchScore c src ∧ matchScore c src ≤ 1 := by
  obtain ⟨ht0, ht1⟩ := titlePoints_bounds c src
  obtain ⟨ha0, ha1⟩ := authorPoints_bounds c src
  obtain ⟨hy0, hy1⟩ := yearPoints_bounds c src
  obtain ⟨hj0, hj1⟩ := journalPoints_bounds c src
  have hconf : 0 ≤ src.confidence.getD 0.5 ∧ src.confidence.getD 0.5 ≤ 1 := by
    cases hc : src.confidence with
    | none => norm_num [Option.getD]
    | some q =>
      have := h q (by rw [hc]; rfl)
      simpa [Option.getD] using this
  have hfac0 : (0 : ℚ) ≤ 0.5 + src.confidence.getD 0.5 * 0.5 := by
    linarith [hconf.1]
  have hfac1 : 0.5 + src.confidence.getD 0.5 * 0.5 ≤ 1 := by
    linarith [hconf.2]
  rw [matchScore]
  split_ifs with hpos
  · have hsum0 : (0 : ℚ) ≤ titlePoints c src + authorPoints c src
        + yearPoints c src + journalPoints c src := by linarith
    constructor
    · apply div_nonneg _ (le_of_lt hpos)
      exact mul_nonneg hsum0 hfac0
    · rw [div_le_one hpos]
      calc (titlePoints c src + authorPoints c src + yearPoints c src
            + journalPoints c src) * (0.5 + src.confidence.getD 0.5 * 0.5)
          ≤ (titlePoints c src + authorPoints c src + yearPoints c src
            + journalPoints c src) * 1 := by
            exact mul_le_mul_of_nonneg_left hfac1 hsum0
        _ = titlePoints c src + authorPoints c src + yearPoints c src
            + journalPoints c src := by ring
        _ ≤ titleWeight c + authorWeight c + yearWeight c + journalWeight c := by
            linarith
  · norm_num

/-- C4 (amended): every confidence at a component boundary lies in `[0,1]`
*except* on the LLM structuring path, which performs no clamp of its own:
the detector's span confidence, the regex-path structurer confidence, the
scorer's match score (for source records whose own confidence lies in
`[0,1]`), and every task progress value lie in `[0,1]`; the LLM-path
confidence lies in `[0,1]` only under the extra assumption that the
backend-reported value does (see the counterexample for a violation
otherwise). -/
theorem C4_confidence_bounds (V : Type) :
    (∀ (ct ft : Str) (i : Nat),
      0 ≤ calculateConfidence ct ft i ∧ calculateConfidence ct ft i ≤ 1)
    ∧ (∀ t : Str,
      0 ≤ (parseWithRegex t).confidence ∧ (parseWithRegex t).confidence ≤ 1)
    ∧ (∀ (p : LlmParsed) (t : Str), (∀ q ∈ p.confidence, 0 ≤ q ∧ q ≤ 1) →
      0 ≤ (parseWithLlm p t).confidence ∧ (parseWithLlm p t).confidence ≤ 1)
    ∧ (∀ (c : StructuredCitation) (src : SRecord),
      (∀ q ∈ src.confidence, 0 ≤ q ∧ q ≤ 1) →
      0 ≤ matchScore c src ∧ matchScore c src ≤ 1)
    ∧ (∀ (es : List (EngineEvent V)) (taskId : Str) (t : PAsyncTask V),
      getTask (runEngine es) taskId = some t →
      0 ≤ t.progress ∧ t.progress ≤ 1) := by
  refine ⟨calculateConfidence_mem, ?_, ?_, matchScore_mem, ?_⟩
  · intro t
    rw [parseWithRegex_confidence]
    obtain ⟨h3, h8⟩ := regexConfidence_mem (regexTitle t ≠ []) (regexFirstAuthor t ≠ [])
      (regexYearM t).isSome ((regexArxivId t).isSome || (regexDoi t).isSome)
    exact validatedConfidence_bound _ _ _ (by linarith) (by linarith)
  · intro p t hp
    rw [parseWithLlm_confidence]
    have hc : 0 ≤ p.confidence.getD 0.8 ∧ p.confidence.getD 0.8 ≤ 1 := by
      cases hcp : p.confidence with
      | none => norm_num [Option.getD]
      | some q =>
        have := hp q (by rw [hcp]; rfl)
        simpa [Option.getD] using this
    exact validatedConfidence_bound _ _ _ hc.1 hc.2
  · intro es taskId t hget
    rw [getTask] at hget
    cases hr : alGet (runEngine es).tasks taskId with
    | none => rw [hr] at hget; simp at hget
    | some obj =>
      rw [hr] at hget
      rcases progressInv_runEngine es obj t hget with h0 | h1
      · rw [h0]; norm_num
      · rw [h1]; norm_num

/-- Witness for C4 (amended): an LLM reply with in-range confidence and a
scorer call on an in-range source. -/
theorem C4_witness :
    0 ≤ (parseWithLlm { title := str "T", confidence := some (9/10) }
        (str "x")).confidence
    ∧ (parseWithLlm { title := str "T", confidence := some (9/10) }
        (str "x")).confidence ≤ 1 := by
  refine (C4_confidence_bounds Nat).2.2.1
    { title := str "T", confidence := some (9/10) } (str "x") ?_
  intro q hq
  have : (9 / 10 : ℚ) = q := by
    have h2 : some (9/10 : ℚ) = some q := hq
    injection h2
  rw [← this]
  norm_num

/-! ## Claim C7 -/

theorem validatedConfidence_not_complete (b2 : Bool) (conf : ℚ)
    (h8 : conf ≤ 0.8) : validatedConfidence false b2 conf ≤ 0.8 := by
  rw [validatedConfidence, if_neg (by simp)]
  cases b2 with
  | true =>
    rw [if_pos rfl, qmax_eq_max]
    apply max_le (by norm_num)
    linarith
  | false =>
    rw [if_neg (by simp)]
    exact h8

/-- C7 counterexample: a regex-parsed citation with quoted title, `et al.`
author, year and DOI starts at the 0.8 cap, and the completeness boost of
`_validate_and_clean` then lifts it to 1.0 > 0.8. -/
theorem C7_counterexample :
    (parseWithRegex (str "Smith et al. (2020). \"A Study\" doi: 10.1234/abc")).confidence = 1
    ∧ ¬ ((1 : ℚ) ≤ 0.8) := by
  constructor
  · rw [parseWithRegex_confidence]
    have hb1 : (decide (cleanTitle
          (regexTitle (str "Smith et al. (2020). \"A Study\" doi: 10.1234/abc")) ≠ [])
        && decide (cleanField
          (regexFirstAuthor (str "Smith et al. (2020). \"A Study\" doi: 10.1234/abc")) ≠ [])
        && decide (cleanYear
          ((regexYearM (str "Smith et al. (2020). \"A Study\" doi: 10.1234/abc")).elim
            [] Prod.snd) ≠ [])) = true := by decide
    have hb2 : (decide (cleanTitle
        (regexTitle (str "Smith et al. (2020). \"A Study\" doi: 10.1234/abc")) = []))
        = false := by decide
    have hc1 : decide
        (regexTitle (str "Smith et al. (2020). \"A Study\" doi: 10.1234/abc") ≠ [])
        = true := by decide
    have hc2 : decide
        (regexFirstAuthor (str "Smith et al. (2020). \"A Study\" doi: 10.1234/abc") ≠ [])
        = true := by decide
    have hc3 : (regexYearM (str "Smith et al. (2020). \"A Study\" doi: 10.1234/abc")).isSome
        = true := by decide
    have hc4 : ((regexArxivId (str "Smith et al. (2020). \"A Study\" doi: 10.1234/abc")).isSome
        || (regexDoi (str "Smith et al. (2020). \"A Study\" doi: 10.1234/abc")).isSome)
        = true := by decide
    rw [hb1, hb2, hc1, hc2, hc3, hc4]
    norm_num [validatedConfidence, regexConfidence, qmin]
  · norm_num

/-- C7 (amended): the regex fallback caps its own data-quality confidence
at 0.8, and the produced `StructuredCitation` keeps confidence ≤ 0.8
whenever title, first author or year is missing after validation; when all
three are present the completeness boost of `_validate_and_clean` may
raise it, but never above 1.0. -/
theorem C7_regex_confidence_cap (t : Str) :
    (parseWithRegex t).confidence ≤ 1
    ∧ (((parseWithRegex t).title = [] ∨ (parseWithRegex t).firstAuthor = []
        ∨ (parseWithRegex t).year = []) →
      (parseWithRegex t).confidence ≤ 0.8) := by
  obtain ⟨h3, h8⟩ := regexConfidence_mem (regexTitle t ≠ []) (regexFirstAuthor t ≠ [])
    (regexYearM t).isSome ((regexArxivId t).isSome || (regexDoi t).isSome)
  constructor
  · rw [parseWithRegex_confidence]
    exact (validatedConfidence_bound _ _ _ (by linarith) (by linarith)).2
  · intro hmiss
    rw [parseWithRegex_confidence]
    have hb1 : (decide (cleanTitle (regexTitle t) ≠ [])
        && decide (cleanField (regexFirstAuthor t) ≠ [])
        && decide (cleanYear ((regexYearM t).elim [] Prod.snd) ≠ [])) = false := by
      rcases hmiss with h | h | h
      · rw [parseWithRegex_title] at h
        simp [h]
      · rw [parseWithRegex_firstAuthor] at h
        simp [h]
      · rw [parseWithRegex_year] at h
        simp [h]
    rw [hb1]
    exact validatedConfidence_not_complete _ _ h8

/-- Witness for C7 (amended) on an input with no extractable title. -/
theorem C7_witness : (parseWithRegex (str "hello")).confidence ≤ 0.8 :=
  (C7_regex_confidence_cap (str "hello")).2 (Or.inl (by decide))

/-! ## Claim C8: DOI extraction structure -/

theorem hasPre_append (p r : Str) : hasPre p (p ++ r) = true := by
  induction p with
  | nil => rfl
  | cons c cs ih => simp [hasPre, ih]

theorem dropWhile_append_all (p : Char → Bool) :
    ∀ (xs ys : Str), (∀ x ∈ xs, p x = true) →
    (xs ++ ys).dropWhile p = ys.dropWhile p := by
  intro xs
  induction xs with
  | nil => intro ys _; rfl
  | cons c cs ih =>
    intro ys h
    rw [List.cons_append, List.dropWhile_cons, if_pos (h c (List.mem_cons_self c cs))]
    exact ih ys (fun x hx => h x (List.mem_cons_of_mem c hx))

theorem ciTake_spec : ∀ (lit s m r : Str), ciTake lit s = some (m, r) →
    lowerStr m = lit ∧ s = m ++ r ∧ m.length = lit.length := by
  intro lit
  induction lit with
  | nil =>
    intro s m r h
    rw [ciTake] at h
    injection h with h2
    injection h2 with hm hr
    subst hm
    subst hr
    exact ⟨rfl, rfl, rfl⟩
  | cons l ls ih =>
    intro s m r h
    cases s with
    | nil =>
      rw [ciTake] at h
      exact absurd h (by simp)
    | cons c cs =>
      rw [ciTake] at h
      by_cases hc : c.toLower = l
      · rw [if_pos hc] at h
        cases hmm : ciTake ls cs with
        | none => rw [hmm] at h; simp at h
        | some pr =>
          obtain ⟨m2, r2⟩ := pr
          rw [hmm] at h
          simp only [Option.map_some'] at h
          injection h with h2
          injection h2 with hm hr
          subst hm
          subst hr
          obtain ⟨hl, hs, hlen⟩ := ih cs m2 r2 hmm
          refine ⟨?_, ?_, ?_⟩
          · rw [lowerStr, List.map_cons, hc]
            rw [lowerStr] at hl
            rw [hl]
          · rw [hs, List.cons_append]
          · rw [List.length_cons, List.length_cons, hlen]
      · rw [if_neg hc] at h
        simp at h

theorem drop_length_append (l1 l2 : List Char) : (l1 ++ l2).drop l1.length = l2 := by
  induction l1 with
  | nil => rfl
  | cons c cs ih =>
    rw [List.cons_append, List.length_cons, List.drop_succ_cons]
    exact ih

theorem dropWhile_ten (X : Str) :
    (str "10." ++ X).dropWhile isPySpace = str "10." ++ X := rfl

theorem scanOpt_some (f : Str → Option α) :
    ∀ (s : Str) (g : α), scanOpt f s = some g → ∃ suf, f suf = some g := by
  intro s
  induction s with
  | nil =>
    intro g h
    rw [scanOpt] at h
    exact ⟨[], h⟩
  | cons c rest ih =>
    intro g h
    rw [scanOpt] at h
    cases hf : f (c :: rest) with
    | some g2 =>
      rw [hf] at h
      simp only [Option.orElse] at h
      exact ⟨c :: rest, by rw [hf, h]⟩
    | none =>
      rw [hf] at h
      simp only [Option.orElse] at h
      exact ih g h

theorem doiTokenAt_spec (s m : Str) (h : doiTokenAt s = some m) :
    hasPre (str "doi:") (lowerStr m) = true
    ∧ hasPre (str "10.") ((m.drop 4).dropWhile isPySpace) = true := by
  rw [doiTokenAt] at h
  cases hct : ciTake (str "doi:") s with
  | none => rw [hct] at h; simp at h
  | some pr =>
    obtain ⟨pre4, r1⟩ := pr
    rw [hct] at h
    dsimp only at h
    cases hlit : litTake (str "10.") ((spanP isPySpace r1).2) with
    | none => rw [hlit] at h; simp at h
    | some r3 =>
      rw [hlit] at h
      dsimp only at h
      by_cases hds : (spanP isDigitC r3).1 = []
      · rw [if_pos hds] at h
        simp at h
      · rw [if_neg hds] at h
        split at h
        · rename_i r5 heq
          by_cases hbody : (spanP (fun c => !isPySpace c && c ≠ ',') r5).1 = []
          · rw [if_pos hbody] at h
            simp at h
          · rw [if_neg hbody] at h
            injection h with hm
            subst hm
            obtain ⟨hlow, hseq, hlen⟩ := ciTake_spec (str "doi:") s pre4 r1 hct
            constructor
            · rw [lowerStr, List.map_append]
              rw [show List.map Char.toLower pre4 = str "doi:" from hlow]
              exact hasPre_append _ _
            · have h4 : (4 : Nat) = pre4.length := by rw [hlen]; rfl
              rw [h4, drop_length_append]
              have hsp : ((spanP isPySpace r1).1 ++ (str "10."
                  ++ ((spanP isDigitC r3).1 ++ '/'
                    :: (spanP (fun c => !isPySpace c && decide (c ≠ ',')) r5).1))).dropWhile
                    isPySpace
                  = (str "10."
                    ++ ((spanP isDigitC r3).1 ++ '/'
                      :: (spanP (fun c => !isPySpace c && decide (c ≠ ',')) r5).1)).dropWhile
                      isPySpace := by
                apply dropWhile_append_all
                intro x hx
                exact List.mem_takeWhile_imp hx
              rw [hsp, dropWhile_ten]
              exact hasPre_append _ _
        · simp at h

theorem doiUrlAt_spec (s g : Str) (h : doiUrlAt s = some g) :
    hasPre (str "10.") g = true := by
  rw [doiUrlAt] at h
  cases h1 : litTake (str "doi.org/") s with
  | none => rw [h1] at h; simp at h
  | some r1 =>
    rw [h1] at h
    dsimp only at h
    cases h2 : litTake (str "10.") r1 with
    | none => rw [h2] at h; simp at h
    | some r2 =>
      rw [h2] at h
      dsimp only at h
      by_cases hds : (spanP isDigitC r2).1 = []
      · rw [if_pos hds] at h
        simp at h
      · rw [if_neg hds] at h
        split at h
        · rename_i r4 heq
          by_cases hbody : (spanP (fun c => !isPySpace c && c ≠ ')') r4).1 = []
          · rw [if_pos hbody] at h
            simp at h
          · rw [if_neg hbody] at h
            injection h with hg
            subst hg
            exact hasPre_append _ _
        · simp at h

theorem regexDoiUrl_pre (t g : Str) (h : regexDoiUrl t = some g) :
    hasPre (str "10.") g = true := by
  rw [regexDoiUrl] at h
  obtain ⟨suf, hsuf⟩ := scanOpt_some doiUrlAt t g h
  exact doiUrlAt_spec suf g hsuf

theorem regexDoiTok_pre (t m : Str) (h : regexDoiTok t = some m) :
    hasPre (str "doi:") (lowerStr m) = true
    ∧ hasPre (str "10.") ((m.drop 4).dropWhile isPySpace) = true := by
  rw [regexDoiTok] at h
  obtain ⟨suf, hsuf⟩ := scanOpt_some doiTokenAt t m h
  exact doiTokenAt_spec suf m hsuf

/-- C8 counterexample: an upper-case `DOI:` token is matched
case-insensitively but stored as written, so the produced `doi` field does
not begin with the lower-cased prefix `"doi:"`; and the `doi.org` URL form
is matched case-sensitively, so `DOI.org/...` yields no `doi` field at
all. -/
theorem C8_counterexample :
    (parseWithRegex (str "DOI: 10.1038/nature12345")).doi
      = some (str "DOI: 10.1038/nature12345")
    ∧ hasPre (str "doi:") (str "DOI: 10.1038/nature12345") = false
    ∧ (parseWithRegex (str "https://DOI.org/10.1038/nature12345")).doi = none := by
  refine ⟨by decide, by decide, by decide⟩

/-- C8 (amended): a lower-case `doi.org` URL yields a `doi` field that is
exactly `"doi:"` ++ the captured DOI (which begins with `"10."`), and a
case-insensitive `doi:` token yields the matched text unchanged, whose
lower-casing begins with `"doi:"` and from which the DOI is recoverable by
dropping the 4-character prefix and the following spaces (leaving a string
beginning with `"10."`); the prefix is guaranteed lower-case only on the
URL path, and upper-case `DOI.org` URLs are not recognised. -/
theorem C8_doi_normalization (t : Str) :
    (∀ g, regexDoiUrl t = some g →
      (parseWithRegex t).doi = some (str "doi:" ++ g)
      ∧ hasPre (str "10.") g = true)
    ∧ (regexDoiUrl t = none → ∀ m, regexDoiTok t = some m →
      (parseWithRegex t).doi = some m
      ∧ hasPre (str "doi:") (lowerStr m) = true
      ∧ hasPre (str "10.") ((m.drop 4).dropWhile isPySpace) = true) := by
  constructor
  · intro g hg
    have h10 := regexDoiUrl_pre t g hg
    have hdoi : regexDoi t = some (str "doi:" ++ g) := by
      rw [regexDoi, hg]
    have hlower : hasPre (str "doi:") (lowerStr (str "doi:" ++ g)) = true := by
      rw [lowerStr, List.map_append]
      rw [show List.map Char.toLower (str "doi:") = str "doi:" from by decide]
      exact hasPre_append _ _
    rw [parseWithRegex_doi, hdoi]
    simp only [Option.map_some']
    rw [hlower]
    constructor
    · rw [if_neg (by simp)]
    · exact h10
  · intro hurl m hm
    obtain ⟨hlow, h10⟩ := regexDoiTok_pre t m hm
    have hdoi : regexDoi t = some m := by
      rw [regexDoi, hurl, hm]
    rw [parseWithRegex_doi, hdoi]
    simp only [Option.map_some']
    rw [hlow]
    refine ⟨?_, rfl, h10⟩
    rw [if_neg (by simp)]

/-- Witness for C8 (amended) on a concrete `doi:` token. -/
theorem C8_witness :
    (parseWithRegex (str "see doi: 10.99/abc")).doi = some (str "doi: 10.99/abc") :=
  ((C8_doi_normalization (str "see doi: 10.99/abc")).2 (by decide)
    (str "doi: 10.99/abc") (by decide)).1

/-! ## Claim C5 -/

theorem dedupByUrl_sublist :
    ∀ (l : List SRecord) (seen : List Str), (dedupByUrl l seen).Sublist l := by
  intro l
  induction l with
  | nil => intro seen; exact List.Sublist.refl _
  | cons r rs ih =>
    intro seen
    rw [dedupByUrl]
    split_ifs with h
    · exact List.Sublist.cons₂ r (ih (r.url :: seen))
    · exact List.Sublist.cons r (ih seen)

theorem dedupByUrl_mem : ∀ (l : List SRecord) (seen : List Str) (r : SRecord),
    r ∈ dedupByUrl l seen → r.url ≠ [] ∧ r.url ∉ seen := by
  intro l
  induction l with
  | nil =>
    intro seen r h
    rw [dedupByUrl] at h
    simp at h
  | cons q rs ih =>
    intro seen r h
    rw [dedupByUrl] at h
    split_ifs at h with hq
    · rcases List.mem_cons.mp h with rfl | h2
      · exact hq
      · have h3 := ih (q.url :: seen) _ h2
        exact ⟨h3.1, fun hmem => h3.2 (List.mem_cons_of_mem _ hmem)⟩
    · exact ih seen r h

theorem dedupByUrl_pairwise : ∀ (l : List SRecord) (seen : List Str),
    (dedupByUrl l seen).Pairwise (fun a b => a.url ≠ b.url) := by
  intro l
  induction l with
  | nil => intro seen; rw [dedupByUrl]; exact List.Pairwise.nil
  | cons r rs ih =>
    intro seen
    rw [dedupByUrl]
    split_ifs with h
    · refine List.pairwise_cons.mpr ⟨?_, ih _⟩
      intro b hb heq
      exact (dedupByUrl_mem rs (r.url :: seen) b hb).2
        (heq ▸ List.mem_cons_self _ _)
    · exact ih seen

/-- C5 (amended): the web-search phase runs exactly when no
direct-resolution record has confidence above 0.9; records with an empty
`url` are dropped, the rest deduplicated by `url` with the first occurrence
winning, and the first five survivors are returned *in discovery order*
(direct results before web results, no sort by confidence — see the
counterexample). -/
theorem C5_search_pipeline (env : SearchEnv) (c : StructuredCitation) :
    ((tryDirectUrlValidation env c).any
        (fun r => decide (r.confidence.getD 0 > 0.9)) = true →
      smartCitationSearch env c
        = (dedupByUrl (tryDirectUrlValidation env c) []).take 5)
    ∧ ((tryDirectUrlValidation env c).any
        (fun r => decide (r.confidence.getD 0 > 0.9)) = false →
      smartCitationSearch env c
        = (dedupByUrl (tryDirectUrlValidation env c
            ++ ((smartQueries c).take 3).flatMap (fun q => env.search q 3)) []).take 5)
    ∧ (smartCitationSearch env c).length ≤ 5
    ∧ (smartCitationSearch env c).Sublist (tryDirectUrlValidation env c
        ++ ((smartQueries c).take 3).flatMap (fun q => env.search q 3))
    ∧ (smartCitationSearch env c).Pairwise (fun a b => a.url ≠ b.url)
    ∧ (∀ r ∈ smartCitationSearch env c, r.url ≠ []) := by
  have hdef : smartCitationSearch env c
      = (dedupByUrl (tryDirectUrlValidation env c
          ++ (if (tryDirectUrlValidation env c).any
                (fun r => decide (r.confidence.getD 0 > 0.9))
              then [] else ((smartQueries c).take 3).flatMap (fun q => env.search q 3)))
          []).take 5 := rfl
  refine ⟨?_, ?_, ?_, ?_, ?_, ?_⟩
  · intro h
    rw [hdef, h]
    simp
  · intro h
    rw [hdef, h]
    simp
  · rw [hdef]
    exact List.length_take_le _ _
  · rw [hdef]
    apply List.Sublist.trans (List.take_sublist _ _)
    apply List.Sublist.trans (dedupByUrl_sublist _ _)
    apply List.append_sublist_append_left (tryDirectUrlValidation env c) |>.mpr
    split_ifs
    · exact List.nil_sublist _
    · exact List.Sublist.refl _
  · rw [hdef]
    exact List.Pairwise.sublist (List.take_sublist _ _) (dedupByUrl_pairwise _ _)
  · intro r hr
    rw [hdef] at hr
    exact (dedupByUrl_mem _ [] r ((List.take_sublist _ _).subset hr)).1

/-- The phase-1 record returned by the DOI resolver in the C5
counterexample environment. -/
def r095 : SRecord := { title := str "D", url := str "u1", confidence := some 0.95 }

/-- The phase-1 record returned by the arXiv resolver in the C5
counterexample environment. -/
def r098 : SRecord := { title := str "A", url := str "u2", confidence := some 0.98 }

/-- A counterexample environment: DOI resolves at confidence 0.95, arXiv at
0.98, no PMID, and web search returns nothing. -/
def envCE : SearchEnv :=
  { validateDoi := fun _ => some r095
    validateArxiv := fun _ => some r098
    validatePmid := fun _ => none
    search := fun _ _ => [] }

/-- A citation with both a DOI and an arXiv id. -/
def citCE : StructuredCitation :=
  { originalText := [], authors := [], firstAuthor := [], title := [], year := []
    doi := some (str "doi:10.1/x"), arxivId := some (str "arXiv:1.2") }

theorem envCE_any_high :
    (tryDirectUrlValidation envCE citCE).any
      (fun r => decide (r.confidence.getD 0 > 0.9)) = true := by
  have hdirect : tryDirectUrlValidation envCE citCE = [r095, r098] := rfl
  rw [hdirect, List.any_cons]
  have h1 : (decide (r095.confidence.getD 0 > 0.9)) = true := by
    rw [decide_eq_true_eq]
    norm_num [r095, Option.getD]
  rw [h1]
  rfl

theorem envCE_smart : smartCitationSearch envCE citCE = [r095, r098] := by
  have hdef : smartCitationSearch envCE citCE
      = (dedupByUrl (tryDirectUrlValidation envCE citCE
          ++ (if (tryDirectUrlValidation envCE citCE).any
                (fun r => decide (r.confidence.getD 0 > 0.9))
              then []
              else ((smartQueries citCE).take 3).flatMap (fun q => envCE.search q 3)))
          []).take 5 := rfl
  rw [hdef, envCE_any_high]
  rw [if_pos rfl]
  rw [show tryDirectUrlValidation envCE citCE = [r095, r098] from rfl]
  rw [List.append_nil]
  rw [dedupByUrl, if_pos (by decide)]
  rw [dedupByUrl, if_pos (by decide)]
  rw [dedupByUrl]
  rfl

/-- C5 counterexample: with a DOI resolving at 0.95 and an arXiv id at
0.98 the returned list is `[0.95, 0.98]` in discovery order — not ordered
by descending record confidence as the claim states. -/
theorem C5_counterexample :
    (smartCitationSearch envCE citCE).map (fun r => r.confidence.getD 0) = [0.95, 0.98]
    ∧ ¬ ((smartCitationSearch envCE citCE).Pairwise
          (fun a b => a.confidence.getD 0 ≥ b.confidence.getD 0)) := by
  constructor
  · rw [envCE_smart]
    norm_num [r095, r098, Option.getD]
  · rw [envCE_smart]
    intro hp
    have h1 := (List.pairwise_cons.mp hp).1 r098 (List.mem_cons_self _ _)
    norm_num [r095, r098, Option.getD] at h1

/-- Witness for C5 (amended): the high-confidence gate suppresses the web
phase in the counterexample environment. -/
theorem C5_witness :
    smartCitationSearch envCE citCE
      = (dedupByUrl (tryDirectUrlValidation envCE citCE) []).take 5 :=
  (C5_search_pipeline envCE citCE).1 envCE_any_high

end CitationNeeded
